import Mathlib

/-!
# Band-excitation chirp demo (`main.cpp`): waveform synthesis and channel packing

A shallow embedding of the waveform pipeline of `main.cpp`:

* `std::vector<float>` is a `List α`; the sample type `α` is any field, so the
  definitions run on `ℚ` and the numerical statements are read on `ℝ`
  (exact arithmetic: rounding of `float`/`double` is not modelled);
* the C library functions `sin` and `erf` are parameters of the functions that
  call them; on `ℝ` they are `Real.sin` and the function `erf` defined below (an
  integral, the only definition here that does not compute);
* an `int` is an `Int`; a negative `int` passed where the vector library expects a
  `size_type` converts to a value above `max_size()` and the library throws
  `std::length_error`, which is the `none` result here. Allocation limits for
  non-negative counts are not modelled;
* the device driver call `getSignedRawFromVolt` is a parameter `q`, the buffer that
  `allocChannelsBuffer` returns is a parameter `alloc`, and the driver calls of `main`
  are recorded in order;
* the `Checked` variants of `generateChirp` and `applyGaussianWindow` are the same
  functions with every executed division stopping on a zero divisor.
-/

namespace BandExcitation

section Vector

variable {α : Type}

/-- Sized constructor `std::vector<float> v(n)` called with an `int`: `n` value-initialised
(zero) elements, or `std::length_error` for a negative `n`. -/
def vectorOfSize [Zero α] (n : Int) : Option (List α) :=
  if n < 0 then none else some (List.replicate n.toNat 0)

/-- Fill insert `v.insert(v.begin() + pos, n, val)` called with an `int` count: `n` copies of
`val` before position `pos`, or `std::length_error` for a negative `n`. -/
def insertFill (v : List α) (pos : Nat) (n : Int) (val : α) : Option (List α) :=
  if n < 0 then none else some (v.take pos ++ List.replicate n.toNat val ++ v.drop pos)

/-- Range insert `v.insert(v.end(), w.begin(), w.end())`. -/
def insertRangeAtEnd (v w : List α) : List α :=
  v ++ w

end Vector

section Waveform

variable {α : Type} [Field α]

/-- The constant `PI` of `main.cpp`, line 18. -/
def PI : α := 3.14159265358979323846

/-- The value stored in `window[i]` by `applyGaussianWindow` (lines 26-27), as a function of
the time `t`. -/
def gaussianWindowFactor (erf : α → α) (smoothing duration t : α) : α :=
  0.5 * (1 + erf ((t - 2 * smoothing) / smoothing))
    - 0.5 * (1 + erf ((t + 2 * smoothing - duration) / smoothing))

/-- One iteration of the loop of `applyGaussianWindow` (lines 25-28) on the pair
`(window, waveform)`; `n` is `waveform.size()`. -/
def applyGaussianWindowStep (erf : α → α) (smoothing duration : α) (n : Nat)
    (st : List α × List α) (i : Nat) : List α × List α :=
  let t : α := (i : α) * duration / (n : α)
  let window := st.1.set i (gaussianWindowFactor erf smoothing duration t)
  (window, st.2.set i (st.2.getD i 0 * window.getD i 0))

/-- The function `applyGaussianWindow` (lines 21-30); the waveform is passed by reference in
the source, the updated waveform is the result here. -/
def applyGaussianWindow (erf : α → α) (waveform : List α) (smoothing duration : α) : List α :=
  let n := waveform.length
  let window : List α := List.replicate n 0
  ((List.range n).foldl (applyGaussianWindowStep erf smoothing duration n) (window, waveform)).2

/-- The value assigned to `waveform[i]` in the loop of `generateChirp` (lines 37-39),
`m` being the slope computed on line 35. -/
def chirpSample (sin : α → α) (freq1 m duration : α) (samples : Int) (amplitude : α)
    (i : Nat) : α :=
  let t : α := (i : α) * duration / (samples : α)
  let freq : α := m * t + freq1
  amplitude * sin (2 * PI * t * freq)

/-- The function `generateChirp` (lines 33-45). -/
def generateChirp (sin : α → α) (freq1 freq2 duration : α) (samples : Int) (amplitude : α)
    (reverse : Bool) : Option (List α) :=
  match vectorOfSize samples with
  | none => none
  | some waveform0 =>
    let m : α := (freq2 - freq1) / (2 * duration)
    let waveform := (List.range samples.toNat).foldl
      (fun wf i => wf.set i (chirpSample sin freq1 m duration samples amplitude i)) waveform0
    some (if reverse then waveform.reverse else waveform)

/-- The function `addDelay` (lines 48-51); the waveform is passed by reference in the source,
the updated waveform is the result here. -/
def addDelay (waveform : List α) (preDelay postDelay : Int) : Option (List α) :=
  match insertFill waveform 0 preDelay 0 with
  | none => none
  | some waveform1 => insertFill waveform1 waveform1.length postDelay 0

/-- The function `repeatWaveform` (lines 54-60): the loop body runs for `i = 0, 1, ...` while
`i < repetitions`. -/
def repeatWaveform (waveform : List α) (repetitions : Int) : List α :=
  (List.range repetitions.toNat).foldl (fun repeatedWaveform _ =>
    insertRangeAtEnd repeatedWaveform waveform) []

/-- Lines 80-85 of `main`, the constants of lines 67-83 taken as parameters: generate, window,
pad, repeat. -/
def repeatedChirpOf (sin erf : α → α) (freq1 freq2 duration : α) (BE_ppw : Int) (amplitude : α)
    (reverse : Bool) (smoothing : α) (preDelay postDelay BE_rep : Int) : Option (List α) :=
  match generateChirp sin freq1 freq2 duration BE_ppw amplitude reverse with
  | none => none
  | some chirpWaveform =>
    match addDelay (applyGaussianWindow erf chirpWaveform smoothing duration)
        preDelay postDelay with
    | none => none
    | some delayed => some (repeatWaveform delayed BE_rep)

/-- Lines 67-85 of `main` with the constants of the source: the repeated chirp handed to the
packing stage. -/
def mainRepeatedChirp (sin erf : α → α) : Option (List α) :=
  let center_freq : α := 500e3
  let bandwidth : α := 60e3
  let duration : α := 4e-3
  let BE_ppw : Int := 1000
  let BE_rep : Int := 2
  let amplitude : α := 1
  let smoothing : α := 125
  let chirpUp : Bool := true
  let freq1 : α := center_freq - bandwidth / 2
  let freq2 : α := center_freq + bandwidth / 2
  let preDelay : Int := 0
  let postDelay : Int := 0
  repeatedChirpOf sin erf freq1 freq2 duration BE_ppw amplitude (!chirpUp) smoothing
    preDelay postDelay BE_rep

/-- Lines 89-93 of `main`: the cantilever waveform is the repeated chirp scaled by
`cantileverScale`. -/
def cantileverWaveformOf (repeatedChirp : List α) (cantileverScale : α) : List α :=
  (List.range repeatedChirp.length).foldl
    (fun cw i => cw.set i (cw.getD i 0 * cantileverScale)) repeatedChirp

end Waveform

section Packing

variable {α : Type} [Zero α]

/-- Conversion of an integer to `uint16_t`. -/
def toUInt16 (c : Int) : Nat := (c % 65536).toNat

/-- Conversion of an integer to `int16_t` (two's complement). -/
def toInt16 (c : Int) : Int := (c + 32768) % 65536 - 32768

/-- The word stored on line 104:
`((uint16_t)valRawCantilever << 16) | ((uint16_t)valRawChirp)` converted to `uint32_t`. The
shift and the or are done on the promoted `int`; the conversion to `uint32_t` keeps its
two's complement bit pattern, which is the value computed here on naturals modulo `2^32`. -/
def packWord (valRawChirp valRawCantilever : Int) : Nat :=
  ((toUInt16 valRawCantilever <<< 16) ||| toUInt16 valRawChirp) % 2 ^ 32

/-- The packing loop of `main` (lines 100-105) on the buffer `buf`; `q` is the driver call
`getSignedRawFromVolt(voltage, channel)`, whose result is stored in an `int16_t`. -/
def packLoop (q : α → Int → Int) (repeatedChirp cantileverWaveform : List α)
    (buf : List Nat) : List Nat :=
  (List.range repeatedChirp.length).foldl (fun b i =>
    let valRawChirp := toInt16 (q (repeatedChirp.getD i 0) 1)
    let valRawCantilever := toInt16 (q (cantileverWaveform.getD i 0) 1)
    b.set i (packWord valRawChirp valRawCantilever)) buf

/-- Low half-word of a 32-bit word. -/
def lowHalf (word : Nat) : Nat := word % 65536

/-- High half-word of a 32-bit word. -/
def highHalf (word : Nat) : Nat := word / 65536 % 65536

/-- A 16-bit pattern read as a signed (two's complement) 16-bit value. -/
def decodeInt16 (u : Nat) : Int := if u < 32768 then (u : Int) else (u : Int) - 65536

end Packing

section RealModel

/-- The C library function `erf` read over the reals:
`erf(x) = 2/sqrt(pi) * integral of exp(-t^2) for t from 0 to x`. -/
noncomputable def erf (x : ℝ) : ℝ :=
  2 / Real.sqrt Real.pi * ∫ t in (0 : ℝ)..x, Real.exp (-t ^ 2)

end RealModel

section Checked

/-- What stops a run of the checked functions below. -/
inductive Fault where
  | lengthError
  | zeroDivisor
  deriving DecidableEq, Repr

variable {α : Type} [Field α] [DecidableEq α]

/-- A division `x / y` of the source, stopping with `Fault.zeroDivisor` when the divisor is
zero. -/
def divChecked (x y : α) : Except Fault α :=
  if y = 0 then Except.error Fault.zeroDivisor else Except.ok (x / y)

/-- The window expression of lines 26-27 with its two divisions by `smoothing` checked. -/
def gaussianWindowFactorChecked (erf : α → α) (smoothing duration t : α) : Except Fault α := do
  let a ← divChecked (t - 2 * smoothing) smoothing
  let b ← divChecked (t + 2 * smoothing - duration) smoothing
  pure (0.5 * (1 + erf a) - 0.5 * (1 + erf b))

/-- One iteration of the loop of `applyGaussianWindow` with every division checked: the
division by `n` on line 25 and the two divisions by `smoothing` on lines 26-27. -/
def applyGaussianWindowStepChecked (erf : α → α) (smoothing duration : α) (n : Nat)
    (st : List α × List α) (i : Nat) : Except Fault (List α × List α) := do
  let t ← divChecked ((i : α) * duration) (n : α)
  let w ← gaussianWindowFactorChecked erf smoothing duration t
  let window := st.1.set i w
  pure (window, st.2.set i (st.2.getD i 0 * window.getD i 0))

/-- The function `applyGaussianWindow` with every executed division checked. -/
def applyGaussianWindowChecked (erf : α → α) (waveform : List α) (smoothing duration : α) :
    Except Fault (List α) := do
  let n := waveform.length
  let window : List α := List.replicate n 0
  let st ← (List.range n).foldlM
    (applyGaussianWindowStepChecked erf smoothing duration n) (window, waveform)
  pure st.2

/-- The loop body of `generateChirp` with the division by `samples` on line 37 checked. -/
def chirpSampleChecked (sin : α → α) (freq1 m duration : α) (samples : Int) (amplitude : α)
    (i : Nat) : Except Fault α := do
  let t ← divChecked ((i : α) * duration) (samples : α)
  let freq : α := m * t + freq1
  pure (amplitude * sin (2 * PI * t * freq))

/-- The function `generateChirp` with every executed division checked: the division by
`2 * duration` on line 35 and the division by `samples` in each iteration. -/
def generateChirpChecked (sin : α → α) (freq1 freq2 duration : α) (samples : Int)
    (amplitude : α) (reverse : Bool) : Except Fault (List α) :=
  match (vectorOfSize samples : Option (List α)) with
  | none => Except.error Fault.lengthError
  | some waveform0 => do
    let m ← divChecked (freq2 - freq1) (2 * duration)
    let waveform ← (List.range samples.toNat).foldlM
      (fun wf i => do
        let v ← chirpSampleChecked sin freq1 m duration samples amplitude i
        pure (wf.set i v)) waveform0
    pure (if reverse then waveform.reverse else waveform)

end Checked

section States

variable {α : Type} [Field α]

/-- The function `addDelay` with the state of its by-reference argument made explicit: the
waveform as the call leaves it, and whether the call left by `std::length_error`. -/
def addDelayRun (waveform : List α) (preDelay postDelay : Int) : List α × Bool :=
  match insertFill waveform 0 preDelay 0 with
  | none => (waveform, true)
  | some waveform1 =>
    match insertFill waveform1 waveform1.length postDelay 0 with
    | none => (waveform1, true)
    | some waveform2 => (waveform2, false)

/-- The two vectors in scope in `repeatWaveform`: the argument and the local result. -/
structure RepeatState (α : Type) where
  /-- The argument `waveform`, a const reference. -/
  waveform : List α
  /-- The local `repeatedWaveform`. -/
  repeatedWaveform : List α

/-- One iteration of the loop of `repeatWaveform` (line 57) on both vectors. -/
def repeatWaveformStep (st : RepeatState α) : RepeatState α :=
  RepeatState.mk st.waveform (insertRangeAtEnd st.repeatedWaveform st.waveform)

/-- The function `repeatWaveform` run on the state of both vectors, from an empty
`repeatedWaveform`. -/
def repeatWaveformRun (waveform : List α) (repetitions : Int) : RepeatState α :=
  (List.range repetitions.toNat).foldl (fun st _ => repeatWaveformStep st)
    (RepeatState.mk waveform [])

/-- A call of `main` to the device driver, with the arguments that matter here. -/
inductive DeviceCall where
  | allocChannelsBuffer (length : Nat)
  | setOutputSampleFrequencyDivider (divider : Nat)
  | setGain (channel gain : Nat)
  | setData (buf : List Nat) (length : Nat)
  | start
  | freeChannelsBuffer (buf : List Nat) (length : Nat)
  deriving DecidableEq, Repr

/-- What a run of `main` computes from line 85 on. -/
structure MainRun (α : Type) where
  /-- The vector `repeatedChirp`, channel 0. -/
  repeatedChirp : List α
  /-- The vector `cantileverWaveform`, channel 1. -/
  cantileverWaveform : List α
  /-- The variable `length` of line 97. -/
  length : Nat
  /-- The buffer `buf` after the packing loop. -/
  buf : List Nat
  /-- The driver calls of lines 98-117, in order. -/
  calls : List DeviceCall

/-- Lines 89-117 of `main`, from the repeated chirp on; `q` is `getSignedRawFromVolt` and
`alloc n` is the content of the buffer that `allocChannelsBuffer(n)` returns. -/
def mainFromRepeatedChirp (q : α → Int → Int) (alloc : Nat → List Nat)
    (repeatedChirp : List α) : MainRun α :=
  let cantileverWaveform := cantileverWaveformOf repeatedChirp 4
  let length := repeatedChirp.length
  let buf := packLoop q repeatedChirp cantileverWaveform (alloc length)
  MainRun.mk repeatedChirp cantileverWaveform length buf
    [DeviceCall.allocChannelsBuffer length,
     DeviceCall.setOutputSampleFrequencyDivider 2,
     DeviceCall.setGain 0 1,
     DeviceCall.setGain 1 1,
     DeviceCall.setData buf length,
     DeviceCall.start,
     DeviceCall.freeChannelsBuffer buf length]

/-- The function `main` (lines 62-120). -/
def main (sin erf : α → α) (q : α → Int → Int) (alloc : Nat → List Nat) :
    Option (MainRun α) :=
  (mainRepeatedChirp sin erf).map (mainFromRepeatedChirp q alloc)

end States

section Helpers

variable {α : Type}

/-- A counted loop `for i in 0..k` that overwrites element `i` by a function of `i` and of
the element's current value. -/
theorem foldl_range_set (g : Nat → α → α) (d : α) (l : List α) (k : Nat) :
    ((List.range k).foldl (fun wf i => wf.set i (g i (wf.getD i d))) l).length = l.length ∧
    ∀ j, ((List.range k).foldl (fun wf i => wf.set i (g i (wf.getD i d))) l)[j]? =
      if j < k then (l[j]?).map (g j) else l[j]? := by
  induction k with
  | zero => simp
  | succ k ih =>
    obtain ⟨hlen, hget⟩ := ih
    rw [List.range_succ, List.foldl_append]
    simp only [List.foldl_cons, List.foldl_nil, List.length_set]
    refine ⟨hlen, fun j => ?_⟩
    rw [List.getElem?_set]
    by_cases hjk : k = j
    · subst hjk
      simp only [if_true, hlen, lt_add_one]
      by_cases hk : k < l.length
      · have h := hget k
        rw [if_neg (lt_irrefl k)] at h
        rw [List.getD_eq_getElem?_getD, h]
        simp [hk]
      · simp [hk, List.getElem?_eq_none (not_lt.mp hk)]
    · rw [if_neg hjk, hget]
      by_cases h1 : j < k
      · simp [h1, Nat.lt_succ_of_lt h1]
      · have : ¬ j < k + 1 := by omega
        simp [h1, this]

end Helpers

section PackingLemmas

theorem toUInt16_lt (c : Int) : toUInt16 c < 65536 := by
  unfold toUInt16; omega

theorem packWord_eq (c0 c1 : Int) : packWord c0 c1 = toUInt16 c1 * 65536 + toUInt16 c0 := by
  have h0 := toUInt16_lt c0
  have h1 := toUInt16_lt c1
  have hor : 2 ^ 16 * toUInt16 c1 + toUInt16 c0 = 2 ^ 16 * toUInt16 c1 ||| toUInt16 c0 :=
    Nat.mul_add_lt_is_or (by norm_num; exact h0) _
  unfold packWord
  rw [Nat.shiftLeft_eq, Nat.mul_comm, ← hor]
  omega

theorem decode_packWord (c0 c1 : Int) (h0 : -32768 ≤ c0 ∧ c0 ≤ 32767)
    (h1 : -32768 ≤ c1 ∧ c1 ≤ 32767) :
    decodeInt16 (lowHalf (packWord c0 c1)) = c0 ∧
    decodeInt16 (highHalf (packWord c0 c1)) = c1 := by
  rw [packWord_eq]
  unfold decodeInt16 lowHalf highHalf toUInt16
  constructor <;> split_ifs <;> omega

end PackingLemmas

section PackingLoop

variable {α : Type} [Zero α]

theorem packLoop_spec (q : α → Int → Int) (channel0 channel1 : List α) (buf : List Nat) :
    (packLoop q channel0 channel1 buf).length = buf.length ∧
    ∀ j, (packLoop q channel0 channel1 buf)[j]? =
      if j < channel0.length then
        (buf[j]?).map (fun _ => packWord (toInt16 (q (channel0.getD j 0) 1))
          (toInt16 (q (channel1.getD j 0) 1)))
      else buf[j]? :=
  foldl_range_set (fun i _ => packWord (toInt16 (q (channel0.getD i 0) 1))
    (toInt16 (q (channel1.getD i 0) 1))) 0 buf channel0.length

theorem toInt16_range (c : Int) : -32768 ≤ toInt16 c ∧ toInt16 c ≤ 32767 := by
  unfold toInt16; omega

theorem toInt16_of_range (c : Int) (h : -32768 ≤ c ∧ c ≤ 32767) : toInt16 c = c := by
  unfold toInt16; omega

end PackingLoop

section RepeatLemmas

variable {α : Type}

theorem repeatLoop_succ (w : List α) (k : Nat) :
    (List.range (k + 1)).foldl (fun acc _ => insertRangeAtEnd acc w) [] =
      (List.range k).foldl (fun acc _ => insertRangeAtEnd acc w) [] ++ w := by
  rw [List.range_succ, List.foldl_append]
  rfl

theorem repeatLoop_eq_flatten (w : List α) (k : Nat) :
    (List.range k).foldl (fun acc _ => insertRangeAtEnd acc w) [] =
      (List.replicate k w).flatten := by
  induction k with
  | zero => rfl
  | succ k ih =>
    rw [repeatLoop_succ, ih, List.replicate_succ']
    simp

theorem repeatLoop_length (w : List α) (k : Nat) :
    ((List.range k).foldl (fun acc _ => insertRangeAtEnd acc w) []).length = k * w.length := by
  induction k with
  | zero => simp
  | succ k ih =>
    rw [repeatLoop_succ, List.length_append, ih, Nat.succ_mul]

theorem repeatLoop_getElem? (w : List α) (k j : Nat) (hj : j < k * w.length) :
    ((List.range k).foldl (fun acc _ => insertRangeAtEnd acc w) [])[j]? = w[j % w.length]? := by
  induction k with
  | zero => simp at hj
  | succ k ih =>
    rw [repeatLoop_succ]
    by_cases h : j < k * w.length
    · rw [List.getElem?_append_left (by rw [repeatLoop_length]; exact h)]
      exact ih h
    · have hge : k * w.length ≤ j := not_lt.mp h
      rw [List.getElem?_append_right (by rw [repeatLoop_length]; exact hge), repeatLoop_length]
      have hlt : j - k * w.length < w.length := by
        rw [Nat.succ_mul] at hj; omega
      have hmod : j % w.length = j - k * w.length := by
        conv_lhs => rw [← Nat.sub_add_cancel hge]
        rw [Nat.add_mul_mod_self_right, Nat.mod_eq_of_lt hlt]
      rw [hmod]

end RepeatLemmas

section DelayLemmas

variable {α : Type} [Field α]

theorem addDelay_eq (w : List α) (preDelay postDelay : Int) (hpre : 0 ≤ preDelay)
    (hpost : 0 ≤ postDelay) :
    addDelay w preDelay postDelay =
      some (List.replicate preDelay.toNat 0 ++ w ++ List.replicate postDelay.toNat 0) := by
  unfold addDelay insertFill
  rw [if_neg (not_lt.mpr hpre)]
  simp only [List.take_zero, List.nil_append, List.drop_zero]
  rw [if_neg (not_lt.mpr hpost), List.take_length, List.drop_length, List.append_nil]

end DelayLemmas

section ChirpLemmas

variable {α : Type} [Field α]

/-- The forward chirp as a list: sample `i` is `chirpSample ... i`. -/
theorem generateChirp_forward (sin : α → α) (freq1 freq2 duration : α) (samples : Int)
    (amplitude : α) (hs : 0 ≤ samples) :
    generateChirp sin freq1 freq2 duration samples amplitude false =
      some ((List.range samples.toNat).map
        (chirpSample sin freq1 ((freq2 - freq1) / (2 * duration)) duration samples amplitude)) := by
  unfold generateChirp vectorOfSize
  rw [if_neg (not_lt.mpr hs)]
  simp only [Bool.false_eq_true, if_false, Option.some.injEq]
  obtain ⟨hlen, hget⟩ := foldl_range_set
    (fun i _ => chirpSample sin freq1 ((freq2 - freq1) / (2 * duration)) duration samples
      amplitude i) (0 : α) (List.replicate samples.toNat 0) samples.toNat
  apply List.ext_getElem?
  intro j
  rw [hget j]
  by_cases hj : j < samples.toNat
  · simp [hj]
  · have hj' : samples.toNat ≤ j := not_lt.mp hj
    rw [if_neg hj, List.getElem?_eq_none (by simpa using hj'),
      List.getElem?_eq_none (by simpa using hj')]

theorem generateChirp_reverse (sin : α → α) (freq1 freq2 duration : α) (samples : Int)
    (amplitude : α) :
    generateChirp sin freq1 freq2 duration samples amplitude true =
      (generateChirp sin freq1 freq2 duration samples amplitude false).map List.reverse := by
  unfold generateChirp
  cases (vectorOfSize samples : Option (List α)) <;> simp

theorem generateChirp_some_length (sin : α → α) (freq1 freq2 duration : α) (n : Int)
    (amplitude : α) (rv : Bool) (hn : 0 ≤ n) :
    ∃ r : List α, generateChirp sin freq1 freq2 duration n amplitude rv = some r ∧
      r.length = n.toNat := by
  have hf := generateChirp_forward sin freq1 freq2 duration n amplitude hn
  cases rv with
  | false => exact ⟨_, hf, by simp⟩
  | true =>
    have hr := generateChirp_reverse sin freq1 freq2 duration n amplitude
    rw [hf] at hr
    exact ⟨_, hr, by simp⟩

end ChirpLemmas

section WindowLemmas

variable {α : Type} [Field α]

/-- Invariant of the loop of `applyGaussianWindow` after `k ≤ n` iterations: both vectors keep
their length, and exactly the samples of index below `k` have been multiplied by their
window factor. -/
theorem applyGaussianWindow_loop (erf : α → α) (w : List α) (smoothing duration : α) (k : Nat)
    (hk : k ≤ w.length) :
    let st := (List.range k).foldl
      (applyGaussianWindowStep erf smoothing duration w.length) (List.replicate w.length 0, w)
    st.1.length = w.length ∧ st.2.length = w.length ∧
    ∀ j : Nat, st.2[j]? =
      if j < k then (w[j]?).map (fun x =>
        x * gaussianWindowFactor erf smoothing duration ((j : α) * duration / (w.length : α)))
      else w[j]? := by
  induction k with
  | zero => simp
  | succ k ih =>
    obtain ⟨h1, h2, hget⟩ := ih (Nat.le_of_succ_le hk)
    have hkn : k < w.length := hk
    simp only [List.range_succ, List.foldl_append, List.foldl_cons, List.foldl_nil]
    generalize (List.range k).foldl
      (applyGaussianWindowStep erf smoothing duration w.length)
      (List.replicate w.length 0, w) = st at h1 h2 hget
    simp only [applyGaussianWindowStep, List.length_set]
    refine ⟨h1, h2, fun j => ?_⟩
    rw [List.getElem?_set]
    by_cases hjk : k = j
    · subst hjk
      have hk2 : k < st.2.length := h2 ▸ hkn
      have hk1 : k < st.1.length := h1 ▸ hkn
      have hold := hget k
      rw [if_neg (lt_irrefl k), List.getElem?_eq_getElem hkn,
        List.getElem?_eq_getElem hk2] at hold
      have hold' : st.2[k] = w[k] := Option.some.inj hold
      simp [hk2, hk1, hkn, List.getD_eq_getElem?_getD, hold']
    · rw [if_neg hjk, hget]
      by_cases h : j < k
      · simp [h, Nat.lt_succ_of_lt h]
      · have : ¬ j < k + 1 := by omega
        simp [h, this]

theorem applyGaussianWindow_spec (erf : α → α) (w : List α) (smoothing duration : α) :
    (applyGaussianWindow erf w smoothing duration).length = w.length ∧
    ∀ j : Nat, (applyGaussianWindow erf w smoothing duration)[j]? =
      (w[j]?).map (fun x =>
        x * gaussianWindowFactor erf smoothing duration ((j : α) * duration / (w.length : α))) := by
  obtain ⟨-, h2, hget⟩ := applyGaussianWindow_loop erf w smoothing duration w.length (le_refl _)
  refine ⟨h2, fun j => ?_⟩
  show ((List.range w.length).foldl
      (applyGaussianWindowStep erf smoothing duration w.length)
      (List.replicate w.length 0, w)).2[j]? = _
  rw [hget j]
  by_cases hj : j < w.length
  · rw [if_pos hj]
  · rw [if_neg hj, List.getElem?_eq_none (not_lt.mp hj)]
    rfl

end WindowLemmas

section ErfLemmas

open MeasureTheory

theorem gauss_intervalIntegrable (a b : ℝ) :
    IntervalIntegrable (fun t : ℝ => Real.exp (-t ^ 2)) volume a b :=
  (Real.continuous_exp.comp ((continuous_pow 2).neg)).intervalIntegrable a b

theorem erf_zero : erf 0 = 0 := by
  simp [erf]

theorem erf_neg (x : ℝ) : erf (-x) = -erf x := by
  unfold erf
  have h := intervalIntegral.integral_comp_neg (a := 0) (b := x)
    (fun t : ℝ => Real.exp (-t ^ 2))
  simp only [neg_sq, neg_zero] at h
  rw [intervalIntegral.integral_symm (-x) 0, ← h]
  ring

theorem erf_coeff_pos : 0 < 2 / Real.sqrt Real.pi :=
  div_pos two_pos (Real.sqrt_pos.mpr Real.pi_pos)

theorem erf_sub (x y : ℝ) :
    erf y - erf x = 2 / Real.sqrt Real.pi * ∫ t in x..y, Real.exp (-t ^ 2) := by
  unfold erf
  rw [← mul_sub, intervalIntegral.integral_interval_sub_left
    (gauss_intervalIntegrable 0 y) (gauss_intervalIntegrable 0 x)]

theorem erf_mono {x y : ℝ} (h : x ≤ y) : erf x ≤ erf y := by
  have hs := erf_sub x y
  have hi : 0 ≤ ∫ t in x..y, Real.exp (-t ^ 2) :=
    intervalIntegral.integral_nonneg h (fun t _ => (Real.exp_pos _).le)
  have := mul_nonneg erf_coeff_pos.le hi
  linarith

/-- A coarse lower bound, enough to see that the window does not vanish:
`erf(1) ≥ 2/sqrt(pi) * exp(-1) ≥ 1/3`. -/
theorem erf_one_ge : 1 / 3 ≤ erf 1 := by
  have hint : Real.exp (-1) ≤ ∫ t in (0 : ℝ)..1, Real.exp (-t ^ 2) := by
    have hc : (∫ _t in (0 : ℝ)..1, Real.exp (-1)) = Real.exp (-1) := by simp
    rw [← hc]
    apply intervalIntegral.integral_mono_on zero_le_one
      intervalIntegrable_const (gauss_intervalIntegrable 0 1)
    intro t ht
    apply Real.exp_le_exp.mpr
    have : t ^ 2 ≤ 1 := by nlinarith [ht.1, ht.2]
    linarith
  have hexp : (1 : ℝ) / 3 ≤ Real.exp (-1) := by
    rw [Real.exp_neg, one_div]
    have h3 : Real.exp 1 ≤ 3 := by
      have := Real.exp_one_lt_d9
      linarith
    exact inv_anti₀ (Real.exp_pos 1) h3
  have hcoef : (1 : ℝ) ≤ 2 / Real.sqrt Real.pi := by
    rw [le_div_iff₀ (Real.sqrt_pos.mpr Real.pi_pos), one_mul]
    have h4 : Real.sqrt Real.pi ≤ Real.sqrt 4 :=
      Real.sqrt_le_sqrt (by linarith [Real.pi_lt_d2])
    have : Real.sqrt 4 = 2 := by
      rw [show (4 : ℝ) = 2 ^ 2 by norm_num, Real.sqrt_sq (by norm_num)]
    linarith
  unfold erf
  have hpos : (0 : ℝ) ≤ ∫ t in (0 : ℝ)..1, Real.exp (-t ^ 2) :=
    le_trans (Real.exp_pos _).le hint
  calc (1 : ℝ) / 3 ≤ Real.exp (-1) := hexp
    _ ≤ ∫ t in (0 : ℝ)..1, Real.exp (-t ^ 2) := hint
    _ = 1 * ∫ t in (0 : ℝ)..1, Real.exp (-t ^ 2) := (one_mul _).symm
    _ ≤ 2 / Real.sqrt Real.pi * ∫ t in (0 : ℝ)..1, Real.exp (-t ^ 2) :=
        mul_le_mul_of_nonneg_right hcoef hpos

theorem erf_tendsto_one : Filter.Tendsto erf Filter.atTop (nhds 1) := by
  have hint : IntegrableOn (fun t : ℝ => Real.exp (-t ^ 2)) (Set.Ioi 0) := by
    have := (integrable_exp_neg_mul_sq (b := 1) one_pos).integrableOn (s := Set.Ioi (0 : ℝ))
    simpa using this
  have hlim := intervalIntegral_tendsto_integral_Ioi (0 : ℝ) hint Filter.tendsto_id
  have hval : ∫ t in Set.Ioi (0 : ℝ), Real.exp (-t ^ 2) = Real.sqrt Real.pi / 2 := by
    have := integral_gaussian_Ioi 1
    simpa using this
  rw [hval] at hlim
  have hmul := hlim.const_mul (2 / Real.sqrt Real.pi)
  have hone : 2 / Real.sqrt Real.pi * (Real.sqrt Real.pi / 2) = 1 := by
    have : Real.sqrt Real.pi ≠ 0 := (Real.sqrt_pos.mpr Real.pi_pos).ne'
    field_simp
  rw [hone] at hmul
  exact hmul

end ErfLemmas

section ErfTail

theorem erf_le_one (x : ℝ) : erf x ≤ 1 :=
  Monotone.ge_of_tendsto (fun _ _ h => erf_mono h) erf_tendsto_one x

theorem integral_exp_neg_two_mul (x : ℝ) :
    ∫ t in (2 : ℝ)..x, Real.exp (-2 * t) = (Real.exp (-4) - Real.exp (-2 * x)) / 2 := by
  have hderiv : ∀ t ∈ Set.uIcc (2 : ℝ) x,
      HasDerivAt (fun u : ℝ => -Real.exp (-2 * u) / 2) (Real.exp (-2 * t)) t := by
    intro t _
    have h1 : HasDerivAt (fun u : ℝ => -2 * u) (-2) t := by
      simpa using (hasDerivAt_id t).const_mul (-2 : ℝ)
    have h2 := ((Real.hasDerivAt_exp (-2 * t)).comp t h1).neg.div_const 2
    convert h2 using 1
    ring
  have hcont : IntervalIntegrable (fun t : ℝ => Real.exp (-2 * t)) MeasureTheory.volume 2 x :=
    (Real.continuous_exp.comp (continuous_const.mul continuous_id)).intervalIntegrable 2 x
  rw [intervalIntegral.integral_eq_sub_of_hasDerivAt hderiv hcont]
  norm_num
  ring

/-- The tail of the error function beyond `2`: `1 - erf(2) ≤ exp(-4)`. -/
theorem one_sub_erf_two_le : 1 - erf 2 ≤ Real.exp (-4) := by
  have hbound : ∀ x : ℝ, 2 ≤ x → erf x ≤ erf 2 + Real.exp (-4) := by
    intro x hx
    have hs := erf_sub 2 x
    have hle : ∫ t in (2 : ℝ)..x, Real.exp (-t ^ 2) ≤ ∫ t in (2 : ℝ)..x, Real.exp (-2 * t) := by
      apply intervalIntegral.integral_mono_on hx (gauss_intervalIntegrable 2 x)
        ((Real.continuous_exp.comp (continuous_const.mul continuous_id)).intervalIntegrable 2 x)
      intro t ht
      apply Real.exp_le_exp.mpr
      show -t ^ 2 ≤ -2 * t
      nlinarith [ht.1]
    rw [integral_exp_neg_two_mul] at hle
    have hpos : 0 < Real.exp (-2 * x) := Real.exp_pos _
    have hcoef : 2 / Real.sqrt Real.pi ≤ 2 := by
      rw [div_le_iff₀ (Real.sqrt_pos.mpr Real.pi_pos)]
      have h1 : (1 : ℝ) ≤ Real.sqrt Real.pi := by
        rw [Real.one_le_sqrt]; linarith [Real.pi_gt_d2]
      linarith
    have hint0 : 0 ≤ ∫ t in (2 : ℝ)..x, Real.exp (-t ^ 2) :=
      intervalIntegral.integral_nonneg hx (fun t _ => (Real.exp_pos _).le)
    have h4 : 0 < Real.exp (-4) := Real.exp_pos _
    have : 2 / Real.sqrt Real.pi * ∫ t in (2 : ℝ)..x, Real.exp (-t ^ 2)
        ≤ 2 * ((Real.exp (-4) - Real.exp (-2 * x)) / 2) :=
      mul_le_mul hcoef hle hint0 (by norm_num)
    linarith
  have hlim : (1 : ℝ) ≤ erf 2 + Real.exp (-4) := by
    apply le_of_tendsto erf_tendsto_one
    filter_upwards [Filter.eventually_ge_atTop (2 : ℝ)] with x hx
    exact hbound x hx
  linarith

theorem exp_neg_four_lt : Real.exp (-4) < 0.02 := by
  have h1 : (2.7 : ℝ) < Real.exp 1 := by
    have := Real.exp_one_gt_d9
    linarith
  have h4 : Real.exp 4 = Real.exp 1 ^ 4 := by
    rw [← Real.exp_nat_mul]; norm_num
  have h50 : (50 : ℝ) < Real.exp 4 := by
    rw [h4]
    have : (2.7 : ℝ) ^ 4 < Real.exp 1 ^ 4 := pow_lt_pow_left₀ h1 (by norm_num) (by norm_num)
    have h27 : (50 : ℝ) < 2.7 ^ 4 := by norm_num
    linarith
  rw [Real.exp_neg]
  have : (Real.exp 4)⁻¹ < (50 : ℝ)⁻¹ := inv_strictAnti₀ (by norm_num) h50
  have h : (50 : ℝ)⁻¹ = 0.02 := by norm_num
  linarith

end ErfTail

section WindowValueLemmas

theorem window_mid (s d : ℝ) (hs : s ≠ 0) :
    gaussianWindowFactor erf s d (d / 2) = erf (d / (2 * s) - 2) := by
  unfold gaussianWindowFactor
  have h1 : (d / 2 - 2 * s) / s = d / (2 * s) - 2 := by field_simp; ring
  have h2 : (d / 2 + 2 * s - d) / s = -(d / (2 * s) - 2) := by field_simp; ring
  rw [h1, h2, erf_neg]
  ring

theorem window_start (s d : ℝ) (hs : s ≠ 0) :
    gaussianWindowFactor erf s d 0 = 0.5 * (erf (d / s - 2) - erf 2) := by
  unfold gaussianWindowFactor
  have h1 : (0 - 2 * s) / s = -2 := by field_simp
  have h2 : (0 + 2 * s - d) / s = -(d / s - 2) := by field_simp; ring
  rw [h1, h2, erf_neg, erf_neg]
  ring

theorem window_end (s d : ℝ) (hs : s ≠ 0) :
    gaussianWindowFactor erf s d d = 0.5 * (erf (d / s - 2) - erf 2) := by
  unfold gaussianWindowFactor
  have h1 : (d - 2 * s) / s = d / s - 2 := by field_simp; ring
  have h2 : (d + 2 * s - d) / s = 2 := by field_simp
  rw [h1, h2]
  ring

/-- The error function is within `ε` of `1` from some point on. -/
theorem erf_near_one (ε : ℝ) (hε : 0 < ε) : ∃ M : ℝ, 0 ≤ M ∧ ∀ x, M ≤ x → |erf x - 1| < ε := by
  obtain ⟨N, hN⟩ := Metric.tendsto_atTop.mp erf_tendsto_one ε hε
  refine ⟨|N|, abs_nonneg N, fun x hx => ?_⟩
  have := hN x (le_trans (le_abs_self N) hx)
  rwa [Real.dist_eq] at this

end WindowValueLemmas

section EndToEndLemmas

variable {α : Type} [Field α]

/-- Sample `k` of generate (reversed), window, repeat: the forward chirp sample of index
`N - 1 - k mod N` times the window factor of index `k mod N`. -/
theorem reversed_windowed_repeat_getElem? (sin erf : α → α) (f1 f2 d : α) (N : Int) (A s : α)
    (rep : Int) (hN : 0 ≤ N) (k : Nat) (hk : k < rep.toNat * N.toNat) :
    ∃ out : List α,
      (generateChirp sin f1 f2 d N A true).map
        (fun c => repeatWaveform (applyGaussianWindow erf c s d) rep) = some out ∧
      out.length = rep.toNat * N.toNat ∧
      out[k]? = some (chirpSample sin f1 ((f2 - f1) / (2 * d)) d N A (N.toNat - 1 - k % N.toNat)
        * gaussianWindowFactor erf s d (((k % N.toNat : Nat) : α) * d / ((N.toNat : Nat) : α))) := by
  have hf := generateChirp_forward sin f1 f2 d N A hN
  have hr := generateChirp_reverse sin f1 f2 d N A
  rw [hf] at hr
  simp only [Option.map_some'] at hr
  generalize hfwd : (List.range N.toNat).map
    (chirpSample sin f1 ((f2 - f1) / (2 * d)) d N A) = fwd at hr
  have hfl : fwd.length = N.toNat := by rw [← hfwd]; simp
  have hrl : fwd.reverse.length = N.toNat := by rw [List.length_reverse, hfl]
  obtain ⟨hwl, hwg⟩ := applyGaussianWindow_spec erf fwd.reverse s d
  have hXl : (applyGaussianWindow erf fwd.reverse s d).length = N.toNat := hwl.trans hrl
  have hNpos : 0 < N.toNat := by
    rcases Nat.eq_zero_or_pos N.toNat with h | h
    · rw [h] at hk; simp at hk
    · exact h
  have hmod : k % N.toNat < N.toNat := Nat.mod_lt k hNpos
  refine ⟨repeatWaveform (applyGaussianWindow erf fwd.reverse s d) rep, by rw [hr]; rfl, ?_, ?_⟩
  · show ((List.range rep.toNat).foldl (fun acc _ => insertRangeAtEnd acc _) []).length = _
    rw [repeatLoop_length, hXl]
  · show ((List.range rep.toNat).foldl (fun acc _ => insertRangeAtEnd acc _) [])[k]? = _
    rw [repeatLoop_getElem? _ _ _ (by rw [hXl]; exact hk), hXl, hwg, hrl,
      List.getElem?_reverse (by rw [hfl]; exact hmod), hfl, ← hfwd, List.getElem?_map,
      List.getElem?_range (by omega)]
    rfl

end EndToEndLemmas

section NumericLemmas

theorem PI_bounds : (3.1415 : ℝ) < PI ∧ (PI : ℝ) < 3.1416 := by
  unfold PI
  constructor <;> norm_num

/-- Forward chirp sample `1` at the parameters of the end-to-end example is below `-0.6`. -/
theorem chirpSample_one_lt :
    chirpSample Real.sin 470000 ((530000 - 470000) / (2 * 0.004)) 0.004 1000 1 1 < -0.6 := by
  have harg : chirpSample Real.sin 470000 ((530000 - 470000) / (2 * 0.004)) 0.004 1000 1 1
      = Real.sin (PI * 3.76024) := by
    unfold chirpSample
    simp only [one_mul]
    congr 1
    push_cast
    ring
  rw [harg]
  obtain ⟨hlo, hhi⟩ := (PI_bounds)
  have hpl := Real.pi_gt_d4
  have hph := Real.pi_lt_d4
  have hy1 : 0.75 < 4 * Real.pi - PI * 3.76024 := by nlinarith
  have hy2 : 4 * Real.pi - PI * 3.76024 < 0.76 := by nlinarith
  have hsin : Real.sin (PI * 3.76024) = -Real.sin (4 * Real.pi - PI * 3.76024) := by
    rw [← Real.sin_neg, ← Real.sin_sub_two_pi (PI * 3.76024), ← Real.sin_sub_two_pi]
    congr 1
    ring
  rw [hsin]
  have hcube := Real.sin_gt_sub_cube (x := 4 * Real.pi - PI * 3.76024) (by linarith)
    (by linarith)
  have hc : (4 * Real.pi - PI * 3.76024) ^ 3 < 0.76 ^ 3 :=
    pow_lt_pow_left₀ hy2 (by linarith) (by norm_num)
  have : (0.76 : ℝ) ^ 3 < 0.44 := by norm_num
  linarith

/-- At `smoothing = 125` and `duration = 0.004` the window factor lies in `[-1, -1/3]` at every
time of the waveform: nothing is tapered. -/
theorem window_125_bounds (t : ℝ) (h0 : 0 ≤ t) (h1 : t ≤ 0.004) :
    -1 ≤ gaussianWindowFactor erf 125 0.004 t ∧ gaussianWindowFactor erf 125 0.004 t ≤ -(1 / 3) := by
  unfold gaussianWindowFactor
  have ha : erf ((t - 2 * 125) / 125) ≤ -(1 / 3) := by
    have h : (t - 2 * 125) / 125 ≤ -1 := by
      rw [div_le_iff₀ (by norm_num)]; linarith
    have := erf_mono h
    rw [erf_neg] at this
    linarith [erf_one_ge]
  have hb : 1 / 3 ≤ erf ((t + 2 * 125 - 0.004) / 125) := by
    have h : (1 : ℝ) ≤ (t + 2 * 125 - 0.004) / 125 := by
      rw [le_div_iff₀ (by norm_num)]; linarith
    exact le_trans erf_one_ge (erf_mono h)
  have ha' : -1 ≤ erf ((t - 2 * 125) / 125) := by
    have := erf_le_one (-((t - 2 * 125) / 125))
    rw [erf_neg] at this
    linarith
  have hb' := erf_le_one ((t + 2 * 125 - 0.004) / 125)
  constructor <;> linarith

end NumericLemmas

section StateLemmas

variable {α : Type} [Field α]

/-- The result of `addDelay` is the state that `addDelayRun` ends in, unless the call left by
`std::length_error`. -/
theorem addDelay_eq_run (w : List α) (preDelay postDelay : Int) :
    addDelay w preDelay postDelay =
      if (addDelayRun w preDelay postDelay).2 then none
      else some (addDelayRun w preDelay postDelay).1 := by
  unfold addDelay addDelayRun
  cases insertFill w 0 preDelay (0 : α) with
  | none => rfl
  | some w1 =>
    simp only
    cases insertFill w1 w1.length postDelay (0 : α) <;> rfl

theorem addDelayRun_neg_pre (w : List α) (preDelay postDelay : Int) (h : preDelay < 0) :
    addDelayRun w preDelay postDelay = (w, true) := by
  simp [addDelayRun, insertFill, h]

theorem addDelayRun_neg_post (w : List α) (preDelay postDelay : Int) (hpre : 0 ≤ preDelay)
    (h : postDelay < 0) :
    addDelayRun w preDelay postDelay = (List.replicate preDelay.toNat 0 ++ w, true) := by
  simp [addDelayRun, insertFill, h, not_lt.mpr hpre]

theorem addDelay_neg (w : List α) (preDelay postDelay : Int)
    (h : preDelay < 0 ∨ postDelay < 0) : addDelay w preDelay postDelay = none := by
  rw [addDelay_eq_run]
  by_cases hpre : preDelay < 0
  · rw [addDelayRun_neg_pre w preDelay postDelay hpre]; rfl
  · have hpost : postDelay < 0 := h.resolve_left hpre
    rw [addDelayRun_neg_post w preDelay postDelay (not_lt.mp hpre) hpost]; rfl

end StateLemmas

section RepeatStateLemmas

variable {α : Type}

theorem repeatWaveformRun_spec (w : List α) (k : Nat) :
    ((List.range k).foldl (fun st _ => repeatWaveformStep st) (RepeatState.mk w [])).waveform = w ∧
    ((List.range k).foldl (fun st _ => repeatWaveformStep st)
        (RepeatState.mk w [])).repeatedWaveform =
      (List.range k).foldl (fun acc _ => insertRangeAtEnd acc w) [] := by
  induction k with
  | zero => exact ⟨rfl, rfl⟩
  | succ k ih =>
    obtain ⟨h1, h2⟩ := ih
    rw [List.range_succ, List.foldl_append, List.foldl_append]
    simp only [List.foldl_cons, List.foldl_nil]
    refine ⟨h1, ?_⟩
    show insertRangeAtEnd _ _ = _
    rw [h1, h2]

end RepeatStateLemmas

section MainLemmas

variable {α : Type} [Field α]

theorem cantileverWaveformOf_spec (repeatedChirp : List α) (cantileverScale : α) :
    (cantileverWaveformOf repeatedChirp cantileverScale).length = repeatedChirp.length ∧
    ∀ j : Nat, (cantileverWaveformOf repeatedChirp cantileverScale)[j]? =
      (repeatedChirp[j]?).map (fun x => x * cantileverScale) := by
  obtain ⟨hlen, hget⟩ := foldl_range_set (fun _ x => x * cantileverScale) (0 : α)
    repeatedChirp repeatedChirp.length
  refine ⟨hlen, fun j => ?_⟩
  show ((List.range repeatedChirp.length).foldl
    (fun cw i => cw.set i (cw.getD i 0 * cantileverScale)) repeatedChirp)[j]? = _
  rw [hget j]
  by_cases hj : j < repeatedChirp.length
  · rw [if_pos hj]
  · rw [if_neg hj, List.getElem?_eq_none (not_lt.mp hj)]
    rfl

theorem packLoop_congr (q q' : α → Int → Int) (h : ∀ v, q v 1 = q' v 1)
    (channel0 channel1 : List α) (buf : List Nat) :
    packLoop q channel0 channel1 buf = packLoop q' channel0 channel1 buf := by
  unfold packLoop
  simp only [h]

/-- Generate, window, pad, repeat succeeds for non-negative counts, with the product length. -/
theorem repeatedChirpOf_some_length (sin erf : α → α) (g1 g2 d : α) (n : Int) (a : α)
    (rv : Bool) (s : α) (p q k : Int) (hn : 0 ≤ n) (hp : 0 ≤ p) (hq : 0 ≤ q) :
    ∃ out : List α, repeatedChirpOf sin erf g1 g2 d n a rv s p q k = some out ∧
      out.length = k.toNat * (n.toNat + p.toNat + q.toNat) := by
  obtain ⟨c, hc, hcl⟩ := generateChirp_some_length sin g1 g2 d n a rv hn
  have hpad := addDelay_eq (applyGaussianWindow erf c s d) p q hp hq
  refine ⟨repeatWaveform (List.replicate p.toNat 0 ++ applyGaussianWindow erf c s d ++
    List.replicate q.toNat 0) k, by simp only [repeatedChirpOf, hc, hpad], ?_⟩
  show ((List.range k.toNat).foldl (fun acc _ => insertRangeAtEnd acc _) []).length = _
  rw [repeatLoop_length]
  simp only [List.length_append, List.length_replicate,
    (applyGaussianWindow_spec erf c s d).1, hcl]
  ring

theorem mainRepeatedChirp_some_length (sin erf : α → α) :
    ∃ out : List α, mainRepeatedChirp sin erf = some out ∧ out.length = 2000 := by
  obtain ⟨out, hout, hlen⟩ := repeatedChirpOf_some_length sin erf
    ((500e3 : α) - 60e3 / 2) ((500e3 : α) + 60e3 / 2) 4e-3 1000 1 false 125 0 0 2
    (by decide) (by decide) (by decide)
  exact ⟨out, hout, by rw [hlen]; decide⟩

end MainLemmas

section WindowShapeLemmas

theorem window_quarter (erfFn : ℝ → ℝ) (s d t : ℝ) (h : s = d / 4) :
    gaussianWindowFactor erfFn s d t = 0 := by
  have hd : d = 4 * s := by rw [h]; ring
  unfold gaussianWindowFactor
  have harg : t + 2 * s - d = t - 2 * s := by rw [hd]; ring
  rw [harg]
  ring

theorem window_symm (s d t : ℝ) :
    gaussianWindowFactor erf s d t = gaussianWindowFactor erf s d (d - t) := by
  unfold gaussianWindowFactor
  have h1 : (d - t - 2 * s) / s = -((t + 2 * s - d) / s) := by rw [← neg_div]; congr 1; ring
  have h2 : (d - t + 2 * s - d) / s = -((t - 2 * s) / s) := by rw [← neg_div]; congr 1; ring
  rw [h1, h2, erf_neg, erf_neg]
  ring

theorem window_time_symm (d : ℝ) (n i : Nat) (hi : i < n) :
    ((n - i : Nat) : ℝ) * d / (n : ℝ) = d - (i : ℝ) * d / (n : ℝ) := by
  have hn : (n : ℝ) ≠ 0 := by
    have : 0 < n := by omega
    exact_mod_cast this.ne'
  rw [Nat.cast_sub hi.le]
  field_simp
  ring

end WindowShapeLemmas

section CheckedLemmas

theorem foldlM_except_ok {β ι : Type} (step : β → ι → Except Fault β) (step' : β → ι → β)
    (l : List ι) (h : ∀ s i, i ∈ l → step s i = Except.ok (step' s i)) (s0 : β) :
    l.foldlM step s0 = Except.ok (l.foldl step' s0) := by
  induction l generalizing s0 with
  | nil => rfl
  | cons a l ih =>
    rw [List.foldlM_cons, h s0 a (List.mem_cons_self a l), List.foldl_cons]
    exact ih (fun s i hi => h s i (List.mem_cons_of_mem a hi)) (step' s0 a)

theorem ok_bind {β γ : Type} (x : β) (f : β → Except Fault γ) :
    (Except.ok x >>= f) = f x := rfl

variable {α : Type} [LinearOrderedField α]

theorem divChecked_ok (x y : α) (hy : y ≠ 0) : divChecked x y = Except.ok (x / y) := by
  unfold divChecked
  rw [if_neg hy]

theorem divChecked_zero (x : α) : divChecked x 0 = Except.error Fault.zeroDivisor := by
  unfold divChecked
  rw [if_pos rfl]

theorem gaussianWindowFactorChecked_ok (erf : α → α) (smoothing duration t : α)
    (hs : smoothing ≠ 0) :
    gaussianWindowFactorChecked erf smoothing duration t
      = Except.ok (gaussianWindowFactor erf smoothing duration t) := by
  unfold gaussianWindowFactorChecked
  rw [divChecked_ok _ _ hs, divChecked_ok _ _ hs]
  rfl

theorem applyGaussianWindowChecked_ok (erf : α → α) (waveform : List α) (smoothing duration : α)
    (hs : smoothing ≠ 0) :
    applyGaussianWindowChecked erf waveform smoothing duration
      = Except.ok (applyGaussianWindow erf waveform smoothing duration) := by
  unfold applyGaussianWindowChecked applyGaussianWindow
  have hstep : ∀ (st : List α × List α) (i : Nat), i ∈ List.range waveform.length →
      applyGaussianWindowStepChecked erf smoothing duration waveform.length st i
        = Except.ok (applyGaussianWindowStep erf smoothing duration waveform.length st i) := by
    intro st i hi
    have hn : (waveform.length : α) ≠ 0 := by
      have : 0 < waveform.length := lt_of_le_of_lt (Nat.zero_le i) (List.mem_range.mp hi)
      exact_mod_cast this.ne'
    unfold applyGaussianWindowStepChecked
    rw [divChecked_ok _ _ hn, ok_bind,
      gaussianWindowFactorChecked_ok erf smoothing duration _ hs]
    rfl
  simp only []
  rw [foldlM_except_ok _ _ _ hstep]
  rfl

theorem generateChirpChecked_ok (sin : α → α) (freq1 freq2 duration : α) (samples : Int)
    (amplitude : α) (reverse : Bool) (hd : duration ≠ 0) (hs : 0 ≤ samples) :
    ∃ r : List α, generateChirp sin freq1 freq2 duration samples amplitude reverse = some r ∧
      generateChirpChecked sin freq1 freq2 duration samples amplitude reverse = Except.ok r := by
  have h2d : 2 * duration ≠ 0 := mul_ne_zero two_ne_zero hd
  have hstep : ∀ (wf : List α) (i : Nat), i ∈ List.range samples.toNat →
      (do
        let v ← chirpSampleChecked sin freq1 ((freq2 - freq1) / (2 * duration)) duration
          samples amplitude i
        pure (wf.set i v) : Except Fault (List α))
        = Except.ok (wf.set i (chirpSample sin freq1 ((freq2 - freq1) / (2 * duration))
            duration samples amplitude i)) := by
    intro wf i hi
    have hn : (samples : α) ≠ 0 := by
      have h1 : i < samples.toNat := List.mem_range.mp hi
      have h2 : (0 : Int) < samples := by omega
      exact_mod_cast h2.ne'
    unfold chirpSampleChecked
    rw [divChecked_ok _ _ hn]
    rfl
  unfold generateChirp generateChirpChecked vectorOfSize
  rw [if_neg (not_lt.mpr hs)]
  simp only []
  rw [divChecked_ok _ _ h2d, ok_bind, foldlM_except_ok _ _ _ hstep]
  exact ⟨_, rfl, rfl⟩

end CheckedLemmas

section CheckedFaultLemmas

variable {α : Type} [LinearOrderedField α]

theorem error_bind {β γ : Type} (e : Fault) (f : β → Except Fault γ) :
    ((Except.error e : Except Fault β) >>= f) = Except.error e := rfl

/-- With `duration = 0` the slope division of line 35 has a zero divisor, for every
non-negative sample count. -/
theorem generateChirpChecked_zero_duration (sin : α → α) (freq1 freq2 : α) (samples : Int)
    (amplitude : α) (reverse : Bool) (hs : 0 ≤ samples) :
    generateChirpChecked sin freq1 freq2 0 samples amplitude reverse
      = Except.error Fault.zeroDivisor := by
  unfold generateChirpChecked vectorOfSize
  rw [if_neg (not_lt.mpr hs)]
  simp only []
  rw [mul_zero, divChecked_zero, error_bind]

/-- With `smoothing = 0` the first iteration on a non-empty waveform divides by zero. -/
theorem applyGaussianWindowChecked_zero_smoothing (erf : α → α) (x : α) (waveform : List α)
    (duration : α) :
    applyGaussianWindowChecked erf (x :: waveform) 0 duration
      = Except.error Fault.zeroDivisor := by
  unfold applyGaussianWindowChecked
  simp only [List.length_cons]
  rw [List.range_succ_eq_map, List.foldlM_cons]
  have hn : ((waveform.length + 1 : Nat) : α) ≠ 0 := by
    exact_mod_cast Nat.succ_ne_zero waveform.length
  have hstep : ∀ st : List α × List α,
      applyGaussianWindowStepChecked erf 0 duration (waveform.length + 1) st 0
        = Except.error Fault.zeroDivisor := by
    intro st
    unfold applyGaussianWindowStepChecked gaussianWindowFactorChecked
    rw [divChecked_ok _ _ hn, ok_bind, divChecked_zero, error_bind, error_bind]
  rw [hstep, error_bind, error_bind]

end CheckedFaultLemmas

/-! ## The claims -/

section PackingClaims

variable {α : Type} [Zero α]

/-- C1. Packing round trip: for signed 16-bit raw codes `c0` (channel 0) and `c1` (channel 1)
the word `((uint16)c1 << 16) | (uint16)c0` has low half decoding to `c0` and high half
decoding to `c1`; and for channel sequences of length `L` and a buffer of at least `L` words
the packing loop keeps the buffer's length, writes at each index `i < L` the word built from
the raw codes of `channel0[i]` and `channel1[i]` (whose halves decode to these raw codes), and
leaves every word of index `i ≥ L` untouched. -/
theorem C1_pack_round_trip (q : α → Int → Int) (channel0 channel1 : List α) (buf : List Nat)
    (L : Nat) (h0 : channel0.length = L) (h1 : channel1.length = L) (hb : L ≤ buf.length) :
    (∀ c0 c1 : Int, -32768 ≤ c0 ∧ c0 ≤ 32767 → -32768 ≤ c1 ∧ c1 ≤ 32767 →
      decodeInt16 (lowHalf (packWord c0 c1)) = c0 ∧
      decodeInt16 (highHalf (packWord c0 c1)) = c1) ∧
    (packLoop q channel0 channel1 buf).length = buf.length ∧
    (∀ i (hi : i < L),
      (packLoop q channel0 channel1 buf)[i]? =
        some (packWord (toInt16 (q (channel0[i]) 1)) (toInt16 (q (channel1[i]) 1))) ∧
      ((packLoop q channel0 channel1 buf)[i]?).map (fun w => decodeInt16 (lowHalf w)) =
        some (toInt16 (q (channel0[i]) 1)) ∧
      ((packLoop q channel0 channel1 buf)[i]?).map (fun w => decodeInt16 (highHalf w)) =
        some (toInt16 (q (channel1[i]) 1))) ∧
    (∀ i, L ≤ i → (packLoop q channel0 channel1 buf)[i]? = buf[i]?) := by
  obtain ⟨hlen, hget⟩ := packLoop_spec q channel0 channel1 buf
  refine ⟨fun c0 c1 hc0 hc1 => decode_packWord c0 c1 hc0 hc1, hlen, fun i hi => ?_, fun i hi => ?_⟩
  · have hw : (packLoop q channel0 channel1 buf)[i]? =
        some (packWord (toInt16 (q (channel0[i]) 1)) (toInt16 (q (channel1[i]) 1))) := by
      rw [hget, if_pos (h0 ▸ hi), List.getElem?_eq_getElem (lt_of_lt_of_le hi hb)]
      simp [List.getD_eq_getElem?_getD, List.getElem?_eq_getElem (h0 ▸ hi),
        List.getElem?_eq_getElem (h1 ▸ hi)]
    have hd := decode_packWord _ _ (toInt16_range (q (channel0[i]) 1))
      (toInt16_range (q (channel1[i]) 1))
    refine ⟨hw, ?_, ?_⟩
    · rw [hw]; simp [hd.1]
    · rw [hw]; simp [hd.2]
  · rw [hget, if_neg (by omega)]

/-- Witness of C1: two channels of three samples, a driver that truncates the voltage, and
a four-word buffer. -/
theorem C1_pack_round_trip_witness :
    packLoop (fun (v : ℚ) _ => ⌊v⌋) [1, -2, 3] [4, -8, 12] [0, 0, 0, 7]
      = [262145, 4294508542, 786435, 7] ∧
    decodeInt16 (lowHalf 4294508542) = -2 ∧ decodeInt16 (highHalf 4294508542) = -8 ∧
    (packLoop (fun (v : ℚ) _ => ⌊v⌋) [1, -2, 3] [4, -8, 12] [0, 0, 0, 7])[3]? = some 7 := by
  have h := C1_pack_round_trip (fun (v : ℚ) _ => ⌊v⌋) [1, -2, 3] [4, -8, 12] [0, 0, 0, 7] 3
    rfl rfl (by decide)
  refine ⟨by decide, by decide, by decide, ?_⟩
  simpa using h.2.2.2 3 (le_refl 3)

end PackingClaims

section RepeatClaims

variable {α : Type}

/-- C2. For every waveform `w` and every repetition count `n ≥ 0`, `repeatWaveform w n` is `w`
concatenated with itself `n` times: its length is `n * len(w)`, its element `k` is
`w[k mod len(w)]` for every valid index `k`, `n = 0` gives the empty sequence and `n = 1`
gives a sequence equal to `w`. -/
theorem C2_repeatWaveform_concat (w : List α) (n : Int) (hn : 0 ≤ n) :
    repeatWaveform w n = (List.replicate n.toNat w).flatten ∧
    ((repeatWaveform w n).length : Int) = n * (w.length : Int) ∧
    (∀ k, k < (repeatWaveform w n).length → (repeatWaveform w n)[k]? = w[k % w.length]?) ∧
    repeatWaveform w 0 = [] ∧
    repeatWaveform w 1 = w := by
  refine ⟨repeatLoop_eq_flatten w n.toNat, ?_, fun k hk => ?_, rfl, ?_⟩
  · show (((List.range n.toNat).foldl (fun acc _ => insertRangeAtEnd acc w) []).length : Int) = _
    rw [repeatLoop_length, Nat.cast_mul, Int.toNat_of_nonneg hn]
  · have hk' : k < n.toNat * w.length := by
      rw [← repeatLoop_length w n.toNat]; exact hk
    exact repeatLoop_getElem? w n.toNat k hk'
  · show insertRangeAtEnd [] w = w
    simp [insertRangeAtEnd]

/-- Witness of C2: three repetitions of a three-sample waveform. -/
theorem C2_repeatWaveform_concat_witness :
    (0 : Int) ≤ 3 ∧
    ((repeatWaveform ([5, 6, 7] : List ℚ) 3).length : Int) = 3 * 3 ∧
    (repeatWaveform ([5, 6, 7] : List ℚ) 3)[7]? = some 6 :=
  ⟨by decide, (C2_repeatWaveform_concat ([5, 6, 7] : List ℚ) 3 (by decide)).2.1,
    by decide⟩

end RepeatClaims

section WaveformClaims

variable {α : Type} [Field α]

/-- C3. For every waveform `w` and every `preDelay ≥ 0`, `postDelay ≥ 0`, `addDelay` returns
the waveform `preDelay` zeros, then `w`, then `postDelay` zeros: its length is
`len(w) + preDelay + postDelay`, its first `preDelay` samples and its last `postDelay`
samples are exactly `0`, and the segment between them is `w` element for element; in
particular `addDelay w 2 3` has length `len(w) + 5`. -/
theorem C3_addDelay_pads_zeros (w : List α) (preDelay postDelay : Int) (hpre : 0 ≤ preDelay)
    (hpost : 0 ≤ postDelay) :
    ∃ r : List α, addDelay w preDelay postDelay = some r ∧
      r = List.replicate preDelay.toNat 0 ++ w ++ List.replicate postDelay.toNat 0 ∧
      (r.length : Int) = (w.length : Int) + preDelay + postDelay ∧
      (∀ i, i < preDelay.toNat → r[i]? = some 0) ∧
      (∀ i, i < w.length → r[preDelay.toNat + i]? = w[i]?) ∧
      (∀ i, i < postDelay.toNat → r[preDelay.toNat + w.length + i]? = some 0) ∧
      (addDelay w 2 3).map List.length = some (w.length + 5) := by
  refine ⟨_, addDelay_eq w preDelay postDelay hpre hpost, rfl, ?_, fun i hi => ?_,
    fun i hi => ?_, fun i hi => ?_, ?_⟩
  · simp only [List.length_append, List.length_replicate, Nat.cast_add,
      Int.toNat_of_nonneg hpre, Int.toNat_of_nonneg hpost]
    ring
  · rw [List.append_assoc, List.getElem?_append_left (by simpa using hi)]
    simp [hi]
  · rw [List.append_assoc, List.getElem?_append_right (by simp)]
    simp [List.getElem?_append_left hi]
  · rw [List.getElem?_append_right (by simp)]
    simp [hi]
  · rw [addDelay_eq w 2 3 (by decide) (by decide)]
    simp

/-- Witness of C3: two leading and three trailing zeros around a two-sample waveform. -/
theorem C3_addDelay_pads_zeros_witness :
    (0 : Int) ≤ 2 ∧ (0 : Int) ≤ 3 ∧
    ∃ r : List ℚ, addDelay ([8, 9] : List ℚ) 2 3 = some r ∧ r = [0, 0, 8, 9, 0, 0, 0] := by
  obtain ⟨r, hr, hval, -⟩ := C3_addDelay_pads_zeros ([8, 9] : List ℚ) 2 3 (by decide) (by decide)
  refine ⟨by decide, by decide, r, hr, ?_⟩
  rw [hval]
  decide

/-- C4. For every sample count `N ≥ 0`, `generateChirp` with `reverse = true` returns the
reversal of what it returns with `reverse = false`: element `i` of the former is element
`N - 1 - i` of the latter. -/
theorem C4_generateChirp_reverse_flag (sin : α → α) (freq1 freq2 duration : α) (N : Int)
    (amplitude : α) (hN : 0 ≤ N) :
    ∃ fwd rev : List α,
      generateChirp sin freq1 freq2 duration N amplitude false = some fwd ∧
      generateChirp sin freq1 freq2 duration N amplitude true = some rev ∧
      rev = fwd.reverse ∧
      fwd.length = N.toNat ∧ rev.length = N.toNat ∧
      ∀ i, i < N.toNat → rev[i]? = fwd[N.toNat - 1 - i]? := by
  have hf := generateChirp_forward sin freq1 freq2 duration N amplitude hN
  have hr := generateChirp_reverse sin freq1 freq2 duration N amplitude
  rw [hf] at hr
  refine ⟨_, _, hf, hr, rfl, by simp, by simp, fun i hi => ?_⟩
  rw [List.getElem?_reverse (by simpa using hi)]
  simp

/-- Witness of C4: a four-sample chirp over the rationals, the sine replaced by the
identity. -/
theorem C4_generateChirp_reverse_flag_witness :
    (0 : Int) ≤ 4 ∧
    ∃ fwd rev : List ℚ,
      generateChirp (fun x => x) 1 2 3 4 5 false = some fwd ∧
      generateChirp (fun x => x) 1 2 3 4 5 true = some rev ∧ rev = fwd.reverse := by
  obtain ⟨fwd, rev, h1, h2, h3, -⟩ :=
    C4_generateChirp_reverse_flag (fun x : ℚ => x) 1 2 3 4 5 (by decide)
  exact ⟨by decide, fwd, rev, h1, h2, h3⟩

/-- C5. For every `sampleCount ≥ 0`, every value of the other arguments and either value of
`reverse`, `generateChirp` returns a sequence of exactly `sampleCount` values; with
`sampleCount = 0` it returns the empty sequence. -/
theorem C5_generateChirp_length (sin : α → α) (freq1 freq2 duration : α) (sampleCount : Int)
    (amplitude : α) (reverse : Bool) (hN : 0 ≤ sampleCount) :
    (∃ r : List α, generateChirp sin freq1 freq2 duration sampleCount amplitude reverse = some r ∧
      (r.length : Int) = sampleCount) ∧
    generateChirp sin freq1 freq2 duration 0 amplitude reverse = some [] := by
  constructor
  · obtain ⟨r, hr, hl⟩ :=
      generateChirp_some_length sin freq1 freq2 duration sampleCount amplitude reverse hN
    exact ⟨r, hr, by rw [hl, Int.toNat_of_nonneg hN]⟩
  · obtain ⟨r, hr, hl⟩ :=
      generateChirp_some_length sin freq1 freq2 duration 0 amplitude reverse (le_refl 0)
    rw [hr]
    exact congrArg some (List.length_eq_zero.mp hl)

/-- Witness of C5: a reversed four-sample chirp over the rationals. -/
theorem C5_generateChirp_length_witness :
    (0 : Int) ≤ 4 ∧
    ∃ r : List ℚ, generateChirp (fun x => x) 1 2 3 4 5 true = some r ∧ (r.length : Int) = 4 :=
  ⟨by decide, (C5_generateChirp_length (fun x : ℚ => x) 1 2 3 4 5 true (by decide)).1⟩

/-- C6. For every length `n`, smoothing and duration there is one factor per index `i`, namely
`w(t_i)` with `t_i = i * duration / n` and
`w(t) = 0.5*(1+erf((t-2*smoothing)/smoothing)) - 0.5*(1+erf((t+2*smoothing-duration)/smoothing))`,
such that for every waveform of length `n` the function `applyGaussianWindow` keeps the length
`n` and replaces each sample `i` by its old value times that factor: the factor depends on
`i`, `n`, `smoothing` and `duration` only, not on the sample values. -/
theorem C6_applyGaussianWindow_factor (erf : α → α) (n : Nat) (smoothing duration : α) :
    ∃ factor : Nat → α,
      (∀ i : Nat, factor i =
        0.5 * (1 + erf (((i : α) * duration / (n : α) - 2 * smoothing) / smoothing))
          - 0.5 * (1 + erf (((i : α) * duration / (n : α) + 2 * smoothing - duration)
              / smoothing))) ∧
      ∀ waveform : List α, waveform.length = n →
        (applyGaussianWindow erf waveform smoothing duration).length = n ∧
        ∀ i (hi : i < waveform.length),
          (applyGaussianWindow erf waveform smoothing duration)[i]? =
            some (waveform[i] * factor i) := by
  refine ⟨fun i => gaussianWindowFactor erf smoothing duration ((i : α) * duration / (n : α)),
    fun i => rfl, fun waveform hlen => ?_⟩
  obtain ⟨h1, h2⟩ := applyGaussianWindow_spec erf waveform smoothing duration
  refine ⟨h1.trans hlen, fun i hi => ?_⟩
  rw [h2 i, List.getElem?_eq_getElem hi, hlen]
  rfl

/-- Witness of C6: a three-sample waveform over the rationals with the error function
replaced by the identity, where every factor is `3`. -/
theorem C6_applyGaussianWindow_factor_witness :
    ∃ factor : Nat → ℚ, factor 1 = 3 ∧
      (applyGaussianWindow (fun x : ℚ => x) [1, 2, 3] 1 10).length = 3 ∧
      (applyGaussianWindow (fun x : ℚ => x) [1, 2, 3] 1 10)[1]? = some (2 * factor 1) := by
  obtain ⟨factor, hf, hw⟩ := C6_applyGaussianWindow_factor (fun x : ℚ => x) 3 1 10
  refine ⟨factor, ?_, (hw [1, 2, 3] rfl).1, (hw [1, 2, 3] rfl).2 1 (by decide)⟩
  rw [hf]; norm_num

/-- C8. End-to-end length: for every sample count `N ≥ 0`, delays `preDelay, postDelay ≥ 0` and
repetitions `r ≥ 0`, generate, window, pad and repeat give a sequence of length
`r * (N + preDelay + postDelay)`; with `N = 1000`, no delay and `r = 2` (`f1 = 470000`,
`f2 = 530000`, `duration = 0.004`, `A = 1`, `reverse = true`, `smoothing = 125`) the length is
`2000`. -/
theorem C8_pipeline_length (sin erf : α → α) (freq1 freq2 duration : α) (N : Int)
    (amplitude : α) (reverse : Bool) (smoothing : α) (preDelay postDelay r : Int)
    (hN : 0 ≤ N) (hpre : 0 ≤ preDelay) (hpost : 0 ≤ postDelay) (hr : 0 ≤ r) :
    (∃ out : List α,
      repeatedChirpOf sin erf freq1 freq2 duration N amplitude reverse smoothing
        preDelay postDelay r = some out ∧
      (out.length : Int) = r * (N + preDelay + postDelay)) ∧
    (repeatedChirpOf sin erf 470000 530000 0.004 1000 1 true 125 0 0 2).map List.length
      = some 2000 := by
  have key : ∀ (g1 g2 d : α) (n : Int) (a : α) (rv : Bool) (s : α) (p q k : Int),
      0 ≤ n → 0 ≤ p → 0 ≤ q → 0 ≤ k →
      ∃ out : List α, repeatedChirpOf sin erf g1 g2 d n a rv s p q k = some out ∧
        (out.length : Int) = k * (n + p + q) := by
    intro g1 g2 d n a rv s p q k hn hp hq hk
    obtain ⟨c, hc, hcl⟩ := generateChirp_some_length sin g1 g2 d n a rv hn
    have hpad := addDelay_eq (applyGaussianWindow erf c s d) p q hp hq
    refine ⟨repeatWaveform (List.replicate p.toNat 0 ++ applyGaussianWindow erf c s d ++
      List.replicate q.toNat 0) k, by simp only [repeatedChirpOf, hc, hpad], ?_⟩
    show (((List.range k.toNat).foldl (fun acc _ => insertRangeAtEnd acc _) []).length : Int) = _
    rw [repeatLoop_length]
    simp only [List.length_append, List.length_replicate, Nat.cast_mul, Nat.cast_add,
      (applyGaussianWindow_spec erf c s d).1, Int.toNat_of_nonneg hp, Int.toNat_of_nonneg hq,
      Int.toNat_of_nonneg hk, hcl, Int.toNat_of_nonneg hn]
    ring
  refine ⟨key freq1 freq2 duration N amplitude reverse smoothing preDelay postDelay r
    hN hpre hpost hr, ?_⟩
  obtain ⟨out, hout, hl⟩ := key 470000 530000 0.004 1000 1 true 125 0 0 2
    (by decide) (by decide) (by decide) (by decide)
  rw [hout]
  have : (out.length : Int) = 2000 := by rw [hl]; norm_num
  simp only [Option.map_some']
  exact congrArg some (by exact_mod_cast this)

/-- Witness of C8: three samples, one leading and two trailing zeros, two repetitions. -/
theorem C8_pipeline_length_witness :
    (0 : Int) ≤ 3 ∧ (0 : Int) ≤ 1 ∧ (0 : Int) ≤ 2 ∧
    ∃ out : List ℚ,
      repeatedChirpOf (fun x => x) (fun x => x) 1 2 3 3 5 true 1 1 2 2 = some out ∧
      (out.length : Int) = 2 * (3 + 1 + 2) :=
  ⟨by decide, by decide, by decide,
    (C8_pipeline_length (fun x : ℚ => x) (fun x => x) 1 2 3 3 5 true 1 1 2 2
      (by decide) (by decide) (by decide) (by decide)).1⟩

end WaveformClaims

section RealClaims

/-- C7. For every `duration > 0`, `sampleCount > 0` and index `i` in `[0, sampleCount)`, over
exact real arithmetic, sample `i` of `generateChirp` with `reverse = false` is
`amplitude * sin(2 * PI * t * freq)` with `t = i * duration / sampleCount` and
`freq = f1 + (f2 - f1) / (2 * duration) * t`, `PI` being the constant of the source, which
lies below the number pi by less than `1e-20`; the slope is divided by `2 * duration`, which
differs from the slope `(f2 - f1) / duration` whenever `f1 ≠ f2`. -/
theorem C7_chirp_sample_formula (f1 f2 duration amplitude : ℝ) (sampleCount : Int) (i : Nat)
    (hd : 0 < duration) (hN : 0 < sampleCount) (hi : (i : Int) < sampleCount) :
    (∃ wf : List ℝ,
      generateChirp Real.sin f1 f2 duration sampleCount amplitude false = some wf ∧
      wf[i]? = some (amplitude * Real.sin (2 * PI * ((i : ℝ) * duration / (sampleCount : ℝ)) *
        (f1 + (f2 - f1) / (2 * duration) * ((i : ℝ) * duration / (sampleCount : ℝ)))))) ∧
    (f1 ≠ f2 → (f2 - f1) / (2 * duration) ≠ (f2 - f1) / duration) ∧
    ((PI : ℝ) < Real.pi ∧ Real.pi - PI < 1e-20) := by
  refine ⟨?_, ?_, ?_⟩
  · refine ⟨_, generateChirp_forward Real.sin f1 f2 duration sampleCount amplitude hN.le, ?_⟩
    have hi' : i < sampleCount.toNat := by omega
    rw [List.getElem?_map, List.getElem?_range hi']
    simp only [Option.map_some', chirpSample]
    rw [add_comm f1]
  · intro hne heq
    have h2 : f2 - f1 ≠ 0 := sub_ne_zero.mpr (Ne.symm hne)
    field_simp at heq
    have : f2 - f1 = 0 := by linarith
    exact h2 this
  · have hlo := Real.pi_gt_d20
    have hhi := Real.pi_lt_d20
    unfold PI
    constructor
    · exact hlo
    · norm_num at hhi ⊢
      linarith

/-- Witness of C7: sample `1` of a four-sample chirp from `1` Hz to `2` Hz over one second. -/
theorem C7_chirp_sample_formula_witness :
    (0 : ℝ) < 1 ∧ (0 : Int) < 4 ∧ ((1 : Nat) : Int) < 4 ∧
    ∃ wf : List ℝ, generateChirp Real.sin 1 2 1 4 1 false = some wf ∧
      wf[1]? = some (1 * Real.sin (2 * PI * (((1 : Nat) : ℝ) * 1 / ((4 : Int) : ℝ)) *
        (1 + (2 - 1) / (2 * 1) * (((1 : Nat) : ℝ) * 1 / ((4 : Int) : ℝ))))) :=
  ⟨by norm_num, by decide, by decide,
    (C7_chirp_sample_formula 1 2 1 1 4 1 (by norm_num) (by decide) (by decide)).1⟩

/-- C9, as stated, fails: with `f1 = 470000`, `f2 = 530000`, `duration = 0.004`, `N = 1000`,
`A = 1`, `reverse = true`, `smoothing = 125` and two repetitions, the sample of index `1998`
(one of the last eight of the `2000`) is not within `1e-3` of `0.0`; it is above `0.2`. -/
theorem C9_edge_samples_counterexample :
    ∃ out : List ℝ,
      (generateChirp Real.sin 470000 530000 0.004 1000 1 true).map
        (fun c => repeatWaveform (applyGaussianWindow erf c 125 0.004) 2) = some out ∧
      out.length = 2000 ∧
      ∃ x : ℝ, out[1998]? = some x ∧ 0.2 < x ∧ ¬ |x - 0| ≤ 1e-3 := by
  obtain ⟨out, hout, hlen, hget⟩ := reversed_windowed_repeat_getElem? Real.sin erf
    470000 530000 0.004 1000 1 125 2 (by decide) 1998 (by decide)
  refine ⟨out, hout, hlen, _, hget, ?_⟩
  have hidx : (1000 : Int).toNat - 1 - 1998 % (1000 : Int).toNat = 1 := by decide
  have hmod : 1998 % (1000 : Int).toNat = 998 := by decide
  have htn : (1000 : Int).toNat = 1000 := by decide
  rw [hidx, hmod, htn]
  have hc := chirpSample_one_lt
  have hw := (window_125_bounds (((998 : Nat) : ℝ) * 0.004 / ((1000 : Nat) : ℝ))
    (by norm_num) (by norm_num)).2
  have hprod : 0.2 < chirpSample Real.sin 470000 ((530000 - 470000) / (2 * 0.004)) 0.004 1000 1 1
      * gaussianWindowFactor erf 125 0.004 (((998 : Nat) : ℝ) * 0.004 / ((1000 : Nat) : ℝ)) := by
    nlinarith
  refine ⟨hprod, ?_⟩
  rw [not_le, sub_zero, abs_of_pos (by linarith)]
  norm_num
  linarith

/-- C9, amended: with the same parameters the sequence has `2000` samples and its last sample
(index `1999`) is exactly `0.0`, hence within `1e-3` of `0.0`: it is the window factor times
the unreversed chirp's sample `0`, which is `amplitude * sin(0)`. -/
theorem C9_last_sample_zero :
    ∃ out : List ℝ,
      (generateChirp Real.sin 470000 530000 0.004 1000 1 true).map
        (fun c => repeatWaveform (applyGaussianWindow erf c 125 0.004) 2) = some out ∧
      out.length = 2000 ∧
      out[1999]? = some 0 ∧ |(0 : ℝ) - 0| ≤ 1e-3 := by
  obtain ⟨out, hout, hlen, hget⟩ := reversed_windowed_repeat_getElem? Real.sin erf
    470000 530000 0.004 1000 1 125 2 (by decide) 1999 (by decide)
  refine ⟨out, hout, hlen, ?_, by norm_num⟩
  rw [hget]
  have hidx : (1000 : Int).toNat - 1 - 1999 % (1000 : Int).toNat = 0 := by decide
  rw [hidx]
  have hz : chirpSample Real.sin 470000 ((530000 - 470000) / (2 * 0.004)) 0.004 1000 1 0 = 0 := by
    simp [chirpSample]
  rw [hz, zero_mul]

/-- C10. For `duration > 0` and `smoothing > 0`, over the reals, the window factor `w` of
`applyGaussianWindow` satisfies `w(duration/2) = erf(duration/(2*smoothing) - 2)` and
`w(0) = w(duration) = 0.5*(erf(duration/smoothing - 2) - erf(2))`; and as
`smoothing/duration` tends to `0` these values tend to `1` and to `0.5*(1 - erf(2))`: for every
`ε > 0` there is `δ > 0` such that `smoothing/duration < δ` puts `w(duration/2)` within `ε` of
`1` and `w(0)`, `w(duration)` within `ε` of `0.5*(1 - erf(2))`, a number between `0` and
`0.01`. -/
theorem C10_window_mid_and_edges :
    (∀ smoothing duration : ℝ, 0 < duration → 0 < smoothing →
      gaussianWindowFactor erf smoothing duration (duration / 2)
        = erf (duration / (2 * smoothing) - 2) ∧
      gaussianWindowFactor erf smoothing duration 0
        = 0.5 * (erf (duration / smoothing - 2) - erf 2) ∧
      gaussianWindowFactor erf smoothing duration duration
        = 0.5 * (erf (duration / smoothing - 2) - erf 2)) ∧
    (∀ ε : ℝ, 0 < ε → ∃ δ : ℝ, 0 < δ ∧ ∀ smoothing duration : ℝ,
      0 < duration → 0 < smoothing → smoothing / duration < δ →
      |gaussianWindowFactor erf smoothing duration (duration / 2) - 1| < ε ∧
      |gaussianWindowFactor erf smoothing duration 0 - 0.5 * (1 - erf 2)| < ε ∧
      |gaussianWindowFactor erf smoothing duration duration - 0.5 * (1 - erf 2)| < ε) ∧
    (0 ≤ 0.5 * (1 - erf 2) ∧ 0.5 * (1 - erf 2) < 0.01) := by
  refine ⟨?_, ?_, ?_⟩
  · intro s d _ hs
    exact ⟨window_mid s d hs.ne', window_start s d hs.ne', window_end s d hs.ne'⟩
  · intro ε hε
    obtain ⟨M, hM0, hM⟩ := erf_near_one ε hε
    have hδ : (0 : ℝ) < 1 / (2 * (M + 2)) := by positivity
    refine ⟨1 / (2 * (M + 2)), hδ, fun s d hd hs hlt => ?_⟩
    have hratio : 2 * (M + 2) < d / s := by
      rw [div_lt_div_iff₀ hd (by positivity)] at hlt
      rw [lt_div_iff₀ hs]
      linarith
    have hhalf : d / (2 * s) = d / s / 2 := by rw [div_div, mul_comm 2 s]
    have h1 : M ≤ d / (2 * s) - 2 := by rw [hhalf]; linarith
    have h2 : M ≤ d / s - 2 := by linarith
    have e1 := hM _ h1
    have e2 := hM _ h2
    have key : |0.5 * (erf (d / s - 2) - erf 2) - 0.5 * (1 - erf 2)| < ε := by
      have : 0.5 * (erf (d / s - 2) - erf 2) - 0.5 * (1 - erf 2)
          = 0.5 * (erf (d / s - 2) - 1) := by ring
      rw [this, abs_mul]
      have h05 : |(0.5 : ℝ)| = 0.5 := abs_of_pos (by norm_num)
      rw [h05]
      have := abs_nonneg (erf (d / s - 2) - 1)
      linarith
    rw [window_mid s d hs.ne', window_start s d hs.ne', window_end s d hs.ne']
    exact ⟨e1, key, key⟩
  · have h1 := erf_le_one 2
    have h2 := one_sub_erf_two_le
    have h3 := exp_neg_four_lt
    constructor <;> linarith

/-- Witness of C10: `smoothing = 1`, `duration = 100`. -/
theorem C10_window_mid_and_edges_witness :
    (0 : ℝ) < 100 ∧ (0 : ℝ) < 1 ∧
    gaussianWindowFactor erf 1 100 (100 / 2) = erf (100 / (2 * 1) - 2) ∧
    gaussianWindowFactor erf 1 100 0 = 0.5 * (erf (100 / 1 - 2) - erf 2) :=
  ⟨by norm_num, by norm_num,
    (C10_window_mid_and_edges.1 1 100 (by norm_num) (by norm_num)).1,
    (C10_window_mid_and_edges.1 1 100 (by norm_num) (by norm_num)).2.1⟩

end RealClaims

section NegativeCountClaims

variable {α : Type} [Field α]

/-- C11. For every waveform and every `preDelay`, `postDelay` of which at least one is
negative, `addDelay` rejects the call: the vector library receives the negative count as a
size above `max_size()` and throws `std::length_error`. A negative `preDelay` and a negative
`postDelay` are treated the same way, whichever argument carries the negative count. When the
call is left, the waveform is untouched for a negative `preDelay`, and holds the front padding
and no back padding for a negative `postDelay`. -/
theorem C11_addDelay_negative_rejected (w : List α) (preDelay postDelay : Int)
    (hneg : preDelay < 0 ∨ postDelay < 0) :
    addDelay w preDelay postDelay = none ∧
    addDelay w postDelay preDelay = none ∧
    (addDelayRun w preDelay postDelay).2 = true ∧
    (preDelay < 0 → (addDelayRun w preDelay postDelay).1 = w) ∧
    (0 ≤ preDelay →
      (addDelayRun w preDelay postDelay).1 = List.replicate preDelay.toNat 0 ++ w) := by
  refine ⟨addDelay_neg w preDelay postDelay hneg, addDelay_neg w postDelay preDelay hneg.symm,
    ?_, fun h => ?_, fun h => ?_⟩
  · by_cases hpre : preDelay < 0
    · rw [addDelayRun_neg_pre w preDelay postDelay hpre]
    · rw [addDelayRun_neg_post w preDelay postDelay (not_lt.mp hpre) (hneg.resolve_left hpre)]
  · rw [addDelayRun_neg_pre w preDelay postDelay h]
  · rw [addDelayRun_neg_post w preDelay postDelay h (hneg.resolve_left (not_lt.mpr h))]

/-- Witness of C11: a negative `postDelay` on a two-sample waveform. -/
theorem C11_addDelay_negative_rejected_witness :
    ((2 : Int) < 0 ∨ (-3 : Int) < 0) ∧
    addDelay ([8, 9] : List ℚ) 2 (-3) = none ∧ addDelay ([8, 9] : List ℚ) (-3) 2 = none :=
  ⟨by decide,
    (C11_addDelay_negative_rejected ([8, 9] : List ℚ) 2 (-3) (by decide)).1,
    (C11_addDelay_negative_rejected ([8, 9] : List ℚ) 2 (-3) (by decide)).2.1⟩

end NegativeCountClaims

section NegativeRepetitionClaims

variable {α : Type}

/-- C17. For every waveform `w` and every `repetitions < 0`, `repeatWaveform` returns the
empty sequence, the same as for `repetitions = 0`: the count is not rejected. For every
`repetitions` the argument `w` is the same after the call as before. -/
theorem C17_repeatWaveform_negative_count (w : List α) (n : Int) :
    (n < 0 → repeatWaveform w n = [] ∧ repeatWaveform w n = repeatWaveform w 0) ∧
    (repeatWaveformRun w n).waveform = w ∧
    (repeatWaveformRun w n).repeatedWaveform = repeatWaveform w n := by
  refine ⟨fun h => ?_, (repeatWaveformRun_spec w n.toNat).1, (repeatWaveformRun_spec w n.toNat).2⟩
  have h0 : n.toNat = 0 := Int.toNat_eq_zero.mpr h.le
  unfold repeatWaveform
  rw [h0]
  exact ⟨rfl, rfl⟩

/-- Witness of C17: minus two repetitions of a two-sample waveform. -/
theorem C17_repeatWaveform_negative_count_witness :
    (-2 : Int) < 0 ∧ repeatWaveform ([8, 9] : List ℚ) (-2) = [] ∧
    (repeatWaveformRun ([8, 9] : List ℚ) (-2)).waveform = [8, 9] :=
  ⟨by decide, ((C17_repeatWaveform_negative_count ([8, 9] : List ℚ) (-2)).1 (by decide)).1,
    (C17_repeatWaveform_negative_count ([8, 9] : List ℚ) (-2)).2.1⟩

end NegativeRepetitionClaims

section DivisionClaims

variable {α : Type} [LinearOrderedField α]

/-- C12. Division safety: for every `duration > 0` and `sampleCount ≥ 0`, `generateChirp`
with each executed division checked (by `2 * duration`, and by `sampleCount` in the loop)
meets no zero divisor and returns what `generateChirp` returns; for every `smoothing > 0` and
every waveform, the empty one included, `applyGaussianWindow` with each executed division
checked (by `n` and by `smoothing` in the loop) meets no zero divisor and returns what
`applyGaussianWindow` returns. The preconditions matter: `duration = 0` gives a zero divisor
in `generateChirp`, and `smoothing = 0` gives one on every non-empty waveform. -/
theorem C12_no_zero_divisor (sin erf : α → α) (freq1 freq2 duration amplitude : α)
    (sampleCount : Int) (reverse : Bool) (waveform : List α) (smoothing windowDuration : α)
    (hd : 0 < duration) (hN : 0 ≤ sampleCount) (hs : 0 < smoothing) :
    (∃ r : List α,
      generateChirp sin freq1 freq2 duration sampleCount amplitude reverse = some r ∧
      generateChirpChecked sin freq1 freq2 duration sampleCount amplitude reverse
        = Except.ok r) ∧
    applyGaussianWindowChecked erf waveform smoothing windowDuration
      = Except.ok (applyGaussianWindow erf waveform smoothing windowDuration) ∧
    applyGaussianWindowChecked erf [] smoothing windowDuration = Except.ok [] ∧
    generateChirpChecked sin freq1 freq2 0 sampleCount amplitude reverse
      = Except.error Fault.zeroDivisor ∧
    (∀ x : α, applyGaussianWindowChecked erf (x :: waveform) 0 windowDuration
      = Except.error Fault.zeroDivisor) :=
  ⟨generateChirpChecked_ok sin freq1 freq2 duration sampleCount amplitude reverse hd.ne' hN,
    applyGaussianWindowChecked_ok erf waveform smoothing windowDuration hs.ne',
    applyGaussianWindowChecked_ok erf [] smoothing windowDuration hs.ne',
    generateChirpChecked_zero_duration sin freq1 freq2 sampleCount amplitude reverse hN,
    fun x => applyGaussianWindowChecked_zero_smoothing erf x waveform windowDuration⟩

/-- Witness of C12: a four-sample chirp and a three-sample waveform over the rationals. -/
theorem C12_no_zero_divisor_witness :
    (0 : ℚ) < 3 ∧ (0 : Int) ≤ 4 ∧ (0 : ℚ) < 1 ∧
    (∃ r : List ℚ, generateChirp (fun x => x) 1 2 3 4 5 true = some r ∧
      generateChirpChecked (fun x => x) 1 2 3 4 5 true = Except.ok r) ∧
    applyGaussianWindowChecked (fun x : ℚ => x) [1, 2, 3] 1 10
      = Except.ok (applyGaussianWindow (fun x : ℚ => x) [1, 2, 3] 1 10) :=
  ⟨by norm_num, by decide, by norm_num,
    (C12_no_zero_divisor (fun x : ℚ => x) (fun x => x) 1 2 3 5 4 true [1, 2, 3] 1 10
      (by norm_num) (by decide) (by norm_num)).1,
    (C12_no_zero_divisor (fun x : ℚ => x) (fun x => x) 1 2 3 5 4 true [1, 2, 3] 1 10
      (by norm_num) (by decide) (by norm_num)).2.1⟩

end DivisionClaims

section MainClaims

variable {α : Type} [Field α]

/-- C13. In `main` the precondition of packing holds: for every repeated chirp sequence the
cantilever sequence (channel 1) has the length of the chirp sequence (channel 0); that
length is the count passed to `allocChannelsBuffer`, the bound of the packing loop and the
count passed to `setData` (and to `freeChannelsBuffer`); and `cantilever[i] = 4 * chirp[i]` at
every index. With the constants of the source, `main` reaches the packing stage with `2000`
samples per channel. -/
theorem C13_main_channels_agree (sin erf : α → α) (q : α → Int → Int) (alloc : Nat → List Nat)
    (repeatedChirp : List α) :
    (mainFromRepeatedChirp q alloc repeatedChirp).repeatedChirp = repeatedChirp ∧
    (mainFromRepeatedChirp q alloc repeatedChirp).cantileverWaveform.length
      = repeatedChirp.length ∧
    (mainFromRepeatedChirp q alloc repeatedChirp).length = repeatedChirp.length ∧
    (mainFromRepeatedChirp q alloc repeatedChirp).buf =
      packLoop q repeatedChirp (mainFromRepeatedChirp q alloc repeatedChirp).cantileverWaveform
        (alloc repeatedChirp.length) ∧
    (mainFromRepeatedChirp q alloc repeatedChirp).calls =
      [DeviceCall.allocChannelsBuffer repeatedChirp.length,
       DeviceCall.setOutputSampleFrequencyDivider 2,
       DeviceCall.setGain 0 1,
       DeviceCall.setGain 1 1,
       DeviceCall.setData (mainFromRepeatedChirp q alloc repeatedChirp).buf repeatedChirp.length,
       DeviceCall.start,
       DeviceCall.freeChannelsBuffer (mainFromRepeatedChirp q alloc repeatedChirp).buf
         repeatedChirp.length] ∧
    (∀ i (hi : i < repeatedChirp.length),
      (mainFromRepeatedChirp q alloc repeatedChirp).cantileverWaveform[i]?
        = some (4 * repeatedChirp[i])) ∧
    (∃ run : MainRun α, main sin erf q alloc = some run ∧
      run.repeatedChirp.length = 2000 ∧ run.cantileverWaveform.length = 2000 ∧
      run.length = 2000) := by
  obtain ⟨hlen, hget⟩ := cantileverWaveformOf_spec repeatedChirp 4
  refine ⟨rfl, hlen, rfl, rfl, rfl, fun i hi => ?_, ?_⟩
  · show (cantileverWaveformOf repeatedChirp 4)[i]? = _
    rw [hget i, List.getElem?_eq_getElem hi, Option.map_some', mul_comm]
  · obtain ⟨out, hout, hl⟩ := mainRepeatedChirp_some_length sin erf
    refine ⟨mainFromRepeatedChirp q alloc out, by simp only [main, hout, Option.map_some'],
      hl, ?_, hl⟩
    exact (cantileverWaveformOf_spec out 4).1.trans hl

/-- Witness of C13: a three-sample repeated chirp over the rationals. -/
theorem C13_main_channels_agree_witness :
    (mainFromRepeatedChirp (fun (x : ℚ) (_ : Int) => ⌊x⌋) (fun n => List.replicate n 0)
        [1, 2, -3]).cantileverWaveform.length = 3 ∧
    (mainFromRepeatedChirp (fun (x : ℚ) (_ : Int) => ⌊x⌋) (fun n => List.replicate n 0)
        [1, 2, -3]).cantileverWaveform[2]? = some ((4 : ℚ) * (-3)) := by
  have h := C13_main_channels_agree (fun x : ℚ => x) (fun x => x)
    (fun (x : ℚ) (_ : Int) => ⌊x⌋) (fun n => List.replicate n 0) [1, 2, -3]
  exact ⟨h.2.1, h.2.2.2.2.2.1 2 (by decide)⟩

/-- C16. The packed buffer of `main` is determined by the conversion at channel argument `1`
alone: for two conversions `q` and `q'` that agree on channel argument `1` and every input
waveform the buffers are equal, because the word of index `i` is built from `q(chirp[i], 1)`
in the low half and `q(cantilever[i], 1)` in the high half. -/
theorem C16_buffer_depends_on_channel_one (sin erf : α → α) (q q' : α → Int → Int)
    (alloc : Nat → List Nat) (repeatedChirp : List α) (hq : ∀ v, q v 1 = q' v 1) :
    (mainFromRepeatedChirp q alloc repeatedChirp).buf
      = (mainFromRepeatedChirp q' alloc repeatedChirp).buf ∧
    (main sin erf q alloc).map (fun run => run.buf)
      = (main sin erf q' alloc).map (fun run => run.buf) ∧
    (∀ i (hi : i < repeatedChirp.length),
      (mainFromRepeatedChirp q alloc repeatedChirp).buf[i]? =
        ((alloc repeatedChirp.length)[i]?).map (fun _ =>
          packWord (toInt16 (q (repeatedChirp[i]) 1))
            (toInt16 (q (repeatedChirp[i] * 4) 1)))) := by
  have hbuf : ∀ rc : List α, (mainFromRepeatedChirp q alloc rc).buf
      = (mainFromRepeatedChirp q' alloc rc).buf :=
    fun rc => packLoop_congr q q' hq rc (cantileverWaveformOf rc 4) (alloc rc.length)
  refine ⟨hbuf repeatedChirp, ?_, fun i hi => ?_⟩
  · obtain ⟨out, hout, -⟩ := mainRepeatedChirp_some_length sin erf
    simp only [main, hout, Option.map_some', hbuf out]
  · show (packLoop q repeatedChirp (cantileverWaveformOf repeatedChirp 4)
      (alloc repeatedChirp.length))[i]? = _
    rw [(packLoop_spec q repeatedChirp _ _).2 i, if_pos hi]
    have h0 : repeatedChirp.getD i 0 = repeatedChirp[i] := by
      rw [List.getD_eq_getElem?_getD, List.getElem?_eq_getElem hi, Option.getD_some]
    have h1 : (cantileverWaveformOf repeatedChirp 4).getD i 0 = repeatedChirp[i] * 4 := by
      rw [List.getD_eq_getElem?_getD, (cantileverWaveformOf_spec repeatedChirp 4).2 i,
        List.getElem?_eq_getElem hi, Option.map_some', Option.getD_some]
    rw [h0, h1]

/-- Witness of C16: two conversions that differ at channel argument `0` only. -/
theorem C16_buffer_depends_on_channel_one_witness :
    (∀ v : ℚ, (fun (x : ℚ) (c : Int) => ⌊x⌋ * c) v 1 = (fun (x : ℚ) (_ : Int) => ⌊x⌋) v 1) ∧
    (mainFromRepeatedChirp (fun (x : ℚ) (c : Int) => ⌊x⌋ * c) (fun n => List.replicate n 0)
        [1, 2, -3]).buf
      = (mainFromRepeatedChirp (fun (x : ℚ) (_ : Int) => ⌊x⌋) (fun n => List.replicate n 0)
        [1, 2, -3]).buf :=
  ⟨fun v => by simp,
    (C16_buffer_depends_on_channel_one (fun x => x) (fun x => x)
      (fun (x : ℚ) (c : Int) => ⌊x⌋ * c) (fun (x : ℚ) (_ : Int) => ⌊x⌋)
      (fun n => List.replicate n 0) [1, 2, -3] (fun v => by simp)).1⟩

end MainClaims

section WindowShapeClaims

/-- C14. When `smoothing = duration / 4` with `smoothing ≠ 0`, over exact real arithmetic, the
window factor is `0` at every `t` (both `erf` arguments coincide, whatever the function `erf`
is), so `applyGaussianWindow` turns every sample of every waveform into `0`. -/
theorem C14_window_zero_at_quarter (erfFn : ℝ → ℝ) (smoothing duration : ℝ)
    (_hs : smoothing ≠ 0) (h : smoothing = duration / 4) :
    (∀ t : ℝ, 0.5 * (1 + erfFn ((t - 2 * smoothing) / smoothing))
        - 0.5 * (1 + erfFn ((t + 2 * smoothing - duration) / smoothing)) = 0) ∧
    (∀ t : ℝ, gaussianWindowFactor erfFn smoothing duration t = 0) ∧
    (∀ waveform : List ℝ,
      applyGaussianWindow erfFn waveform smoothing duration
        = List.replicate waveform.length 0) := by
  have hw : ∀ t : ℝ, gaussianWindowFactor erfFn smoothing duration t = 0 :=
    fun t => window_quarter erfFn smoothing duration t h
  refine ⟨hw, hw, fun waveform => ?_⟩
  obtain ⟨hlen, hget⟩ := applyGaussianWindow_spec erfFn waveform smoothing duration
  apply List.ext_getElem?
  intro j
  rw [hget j]
  by_cases hj : j < waveform.length
  · rw [List.getElem?_eq_getElem hj, Option.map_some', hw, mul_zero,
      List.getElem?_replicate, if_pos hj]
  · rw [List.getElem?_eq_none (not_lt.mp hj), List.getElem?_replicate, if_neg hj]
    rfl

/-- Witness of C14: `smoothing = 1`, `duration = 4`, the function `erf`, a two-sample
waveform. -/
theorem C14_window_zero_at_quarter_witness :
    (1 : ℝ) ≠ 0 ∧ (1 : ℝ) = 4 / 4 ∧
    gaussianWindowFactor erf 1 4 3 = 0 ∧
    applyGaussianWindow erf [5, 7] 1 4 = [0, 0] :=
  ⟨by norm_num, by norm_num,
    (C14_window_zero_at_quarter erf 1 4 (by norm_num) (by norm_num)).2.1 3,
    (C14_window_zero_at_quarter erf 1 4 (by norm_num) (by norm_num)).2.2 [5, 7]⟩

/-- C15. The window is symmetric about the midpoint: for every `smoothing ≠ 0`, every
`duration` and every real `t`, `w(t) = w(duration - t)`; consequently for a waveform of length
`n` and every `0 < i < n` the factor applied by `applyGaussianWindow` at index `i` is the
factor applied at index `n - i`, over exact real arithmetic. -/
theorem C15_window_symmetric (smoothing duration : ℝ) (_hs : smoothing ≠ 0) :
    (∀ t : ℝ, gaussianWindowFactor erf smoothing duration t
      = gaussianWindowFactor erf smoothing duration (duration - t)) ∧
    (∀ n i : Nat, 0 < i → i < n →
      gaussianWindowFactor erf smoothing duration ((i : ℝ) * duration / (n : ℝ))
        = gaussianWindowFactor erf smoothing duration
            (((n - i : Nat) : ℝ) * duration / (n : ℝ))) ∧
    (∀ (waveform : List ℝ) (i : Nat) (h0 : 0 < i) (hi : i < waveform.length),
      ∃ factor : ℝ,
        (applyGaussianWindow erf waveform smoothing duration)[i]?
          = some (waveform[i] * factor) ∧
        (applyGaussianWindow erf waveform smoothing duration)[waveform.length - i]?
          = some (waveform[waveform.length - i] * factor)) := by
  have hsym : ∀ n i : Nat, 0 < i → i < n →
      gaussianWindowFactor erf smoothing duration ((i : ℝ) * duration / (n : ℝ))
        = gaussianWindowFactor erf smoothing duration
            (((n - i : Nat) : ℝ) * duration / (n : ℝ)) := by
    intro n i _ hi
    rw [window_time_symm duration n i hi]
    exact window_symm smoothing duration _
  refine ⟨fun t => window_symm smoothing duration t, hsym, fun waveform i h0 hi => ?_⟩
  obtain ⟨-, hget⟩ := applyGaussianWindow_spec erf waveform smoothing duration
  have hi' : waveform.length - i < waveform.length := by omega
  refine ⟨gaussianWindowFactor erf smoothing duration
    ((i : ℝ) * duration / (waveform.length : ℝ)), ?_, ?_⟩
  · rw [hget i, List.getElem?_eq_getElem hi, Option.map_some']
  · rw [hget (waveform.length - i), List.getElem?_eq_getElem hi', Option.map_some',
      hsym waveform.length i h0 hi]

/-- Witness of C15: `smoothing = 1`, `duration = 10`, index `1` of `4`. -/
theorem C15_window_symmetric_witness :
    (1 : ℝ) ≠ 0 ∧ 0 < 1 ∧ 1 < 4 ∧
    gaussianWindowFactor erf 1 10 (((1 : Nat) : ℝ) * 10 / ((4 : Nat) : ℝ))
      = gaussianWindowFactor erf 1 10 (((4 - 1 : Nat) : ℝ) * 10 / ((4 : Nat) : ℝ)) :=
  ⟨by norm_num, by decide, by decide,
    (C15_window_symmetric 1 10 (by norm_num)).2.1 4 1 (by decide) (by decide)⟩

end WindowShapeClaims

end BandExcitation
